import Mathlib

set_option linter.all false

/-!
# Verification of aocl-libmem vectorized memory/string kernels

Shallow embedding of the AVX2/AVX‑512/Zen4 kernels of aocl-libmem.
Memory is modelled as a total byte function `Mem := Nat → Nat` (the byte
stored at an absolute address, or at an offset from a buffer base); a
512‑bit `cmpneq`/`cmpeq` mask followed by `tzcnt` is modelled by
`firstWitness`, the first index in a window satisfying a byte predicate.
Pointer values appear as explicit `Nat` addresses wherever the C code
branches on alignment or page position.
-/

namespace Libmem

/-- Vector width of a ZMM (AVX‑512) register, bytes (`ZMM_SZ`). -/
def ZMM_SZ : Nat := 64

/-- Vector width of a YMM (AVX2) register, bytes (`YMM_SZ`). -/
def YMM_SZ : Nat := 32

/-- Vector width of an XMM register, bytes (`XMM_SZ`). -/
def XMM_SZ : Nat := 16

/-- `QWORD_SZ` from the source headers. -/
def QWORD_SZ : Nat := 8

/-- `DWORD_SZ` from the source headers. -/
def DWORD_SZ : Nat := 4

/-- `WORD_SZ` from the source headers. -/
def WORD_SZ : Nat := 2

/-- Memory page size (`PAGE_SZ`). -/
def PAGE_SZ : Nat := 4096

/-- A byte memory: byte value at each (absolute or buffer-relative) address. -/
abbrev Mem := Nat → Nat

/-- First index `i ∈ [start, start+width)` with `p i = true`, scanning upward.
This is the functional content of building a per-byte comparison mask over a
window and taking `tzcnt` of it. -/
def firstWitness (p : Nat → Bool) : Nat → Nat → Option Nat
  | _, 0 => none
  | s, w+1 => if p s then some s else firstWitness p (s+1) w

theorem firstWitness_eq_none {p : Nat → Bool} {s w : Nat} :
    firstWitness p s w = none ↔ ∀ i, s ≤ i → i < s + w → p i = false := by
  induction w generalizing s with
  | zero =>
    simp only [firstWitness, true_iff]
    exact fun i h1 h2 => absurd h2 (by omega)
  | succ w ih =>
    constructor
    · intro hnone i hsi hiw
      simp only [firstWitness] at hnone
      by_cases hp : p s
      · simp [hp] at hnone
      · rcases Nat.eq_or_lt_of_le hsi with heq | hlt
        · have : p s = false := by simpa using hp
          exact heq ▸ this
        · rw [if_neg (by simpa using hp)] at hnone
          exact (ih.mp hnone) i hlt (by omega)
    · intro hall
      simp only [firstWitness]
      have hps : p s = false := hall s le_rfl (by omega)
      rw [if_neg (by simp [hps])]
      exact ih.mpr (fun i h1 h2 => hall i (by omega) (by omega))

theorem firstWitness_some {p : Nat → Bool} {s w j : Nat}
    (h : firstWitness p s w = some j) :
    s ≤ j ∧ j < s + w ∧ p j = true ∧ ∀ i, s ≤ i → i < j → p i = false := by
  induction w generalizing s with
  | zero => simp [firstWitness] at h
  | succ w ih =>
    simp only [firstWitness] at h
    by_cases hp : p s
    · rw [if_pos (by simpa using hp)] at h
      injection h with h
      subst h
      exact ⟨le_rfl, by omega, hp, fun i h1 h2 => absurd h2 (by omega)⟩
    · rw [if_neg (by simpa using hp)] at h
      obtain ⟨h1, h2, h3, h4⟩ := ih h
      refine ⟨by omega, by omega, h3, fun i hsi hij => ?_⟩
      rcases Nat.eq_or_lt_of_le hsi with heq | hlt
      · have : p s = false := by simpa using hp
        exact heq ▸ this
      · exact h4 i hlt hij

theorem firstWitness_some_intro {p : Nat → Bool} {s w j : Nat}
    (h1 : s ≤ j) (h2 : j < s + w) (h3 : p j = true)
    (h4 : ∀ i, s ≤ i → i < j → p i = false) :
    firstWitness p s w = some j := by
  induction w generalizing s with
  | zero => omega
  | succ w ih =>
    simp only [firstWitness]
    rcases Nat.eq_or_lt_of_le h1 with heq | hlt
    · subst heq
      rw [if_pos (by simpa using h3)]
    · have hps : p s = false := h4 s le_rfl hlt
      rw [if_neg (by simp [hps])]
      exact ih (by omega) (by omega) (fun i hsi hij => h4 i (by omega) hij)

/-! ## Byte-difference comparison (`memcmp` family) -/

/-- Per-byte inequality predicate between two operands at a common offset. -/
def neqB (m1 m2 : Mem) (i : Nat) : Bool := m1 i != m2 i

/-- First differing offset within `[base, base+w)`:
the value of `_tzcnt_u64(_mm512_cmpneq_epu8_mask(...)) + base` when the
mask is non-zero, `none` when the mask is zero. -/
def chunkDiff (m1 m2 : Mem) (base w : Nat) : Option Nat :=
  firstWitness (neqB m1 m2) base w

/-- The returned value at a mismatch: difference of the two bytes read back
as unsigned chars, `(*(uint8_t*)(mem1+i)) - (*(uint8_t*)(mem2+i))`. -/
def byteDiff (m1 m2 : Mem) (i : Nat) : Int := (m1 i : Int) - (m2 i : Int)

/-- Scalar reference comparison: signed difference of the first differing
bytes, `0` if the first `n` bytes agree (byte-wise scan stopping at the
first mismatch). -/
def memcmp_ref (m1 m2 : Mem) (n : Nat) : Int :=
  match chunkDiff m1 m2 0 n with
  | some i => byteDiff m1 m2 i
  | none => 0

/-- The size ≤ 4*ZMM_SZ front cases shared verbatim by `_memcmp_avx512`
(src/isa/avx512/optimized/memcmp_avx512.c lines 39–109) and
`__memcmp_zen4` (src/uarch/zen4/memcmp_zen4.c lines 42–112):
a masked-load compare for ≤ 64B, head+back-anchored 64B blocks otherwise. -/
def memcmp_small (m1 m2 : Mem) (size : Nat) : Int :=
  if size ≤ ZMM_SZ then
    -- masked loads zero the lanes ≥ size in both operands, so the
    -- cmpneq mask only ranges over the first `size` lanes
    match chunkDiff m1 m2 0 size with
    | some i => byteDiff m1 m2 i
    | none => 0
  else if size ≤ 2 * ZMM_SZ then
    match chunkDiff m1 m2 0 ZMM_SZ with
    | some i => byteDiff m1 m2 i
    | none =>
      match chunkDiff m1 m2 (size - ZMM_SZ) ZMM_SZ with
      | some i => byteDiff m1 m2 i
      | none => 0
  else
    match chunkDiff m1 m2 0 ZMM_SZ with
    | some i => byteDiff m1 m2 i
    | none =>
    match chunkDiff m1 m2 ZMM_SZ ZMM_SZ with
    | some i => byteDiff m1 m2 i
    | none =>
    match chunkDiff m1 m2 (size - 2 * ZMM_SZ) ZMM_SZ with
    | some i => byteDiff m1 m2 i
    | none =>
    match chunkDiff m1 m2 (size - ZMM_SZ) ZMM_SZ with
    | some i => byteDiff m1 m2 i
    | none => 0

/-- Tail cases of `_memcmp_avx512` (the `switch (rem_vecs)` with fallthrough,
lines 157–199): back-anchored 64B blocks at `size - c*ZMM_SZ`, case `c`
falling through to `c-1`; any other `rem_vecs` value skips the switch. -/
def memcmp_avx512_rem (m1 m2 : Mem) (size : Nat) : Nat → Int
  | 1 =>
    match chunkDiff m1 m2 (size - ZMM_SZ) ZMM_SZ with
    | some i => byteDiff m1 m2 i
    | none => 0
  | 2 =>
    match chunkDiff m1 m2 (size - 2 * ZMM_SZ) ZMM_SZ with
    | some i => byteDiff m1 m2 i
    | none => memcmp_avx512_rem m1 m2 size 1
  | 3 =>
    match chunkDiff m1 m2 (size - 3 * ZMM_SZ) ZMM_SZ with
    | some i => byteDiff m1 m2 i
    | none => memcmp_avx512_rem m1 m2 size 2
  | 4 =>
    match chunkDiff m1 m2 (size - 4 * ZMM_SZ) ZMM_SZ with
    | some i => byteDiff m1 m2 i
    | none => memcmp_avx512_rem m1 m2 size 3
  | _ => 0

/-- The 4×ZMM unrolled main loop of `_memcmp_avx512` (lines 111–155).
`rem_data` is `size - offset ≤ 256` at loop exit, so the `uint16_t`
truncation in the source is exact; `>> 6` is division by 64 and
`& 0x3F` is the remainder mod 64. -/
def memcmp_avx512_loop (m1 m2 : Mem) (size offset : Nat) : Int :=
  if h : size - 4 * ZMM_SZ > offset then
    match chunkDiff m1 m2 offset ZMM_SZ with
    | some i => byteDiff m1 m2 i
    | none =>
    match chunkDiff m1 m2 (offset + ZMM_SZ) ZMM_SZ with
    | some i => byteDiff m1 m2 i
    | none =>
    match chunkDiff m1 m2 (offset + 2 * ZMM_SZ) ZMM_SZ with
    | some i => byteDiff m1 m2 i
    | none =>
    match chunkDiff m1 m2 (offset + 3 * ZMM_SZ) ZMM_SZ with
    | some i => byteDiff m1 m2 i
    | none => memcmp_avx512_loop m1 m2 size (offset + 4 * ZMM_SZ)
  else if offset = size then 0
  else
    memcmp_avx512_rem m1 m2 size
      ((size - offset) / ZMM_SZ + if (size - offset) % ZMM_SZ ≠ 0 then 1 else 0)
termination_by size - offset
decreasing_by simp [ZMM_SZ] at *; omega

/-- `_memcmp_avx512` (src/isa/avx512/optimized/memcmp_avx512.c). -/
def memcmp_avx512 (m1 m2 : Mem) (size : Nat) : Int :=
  if size ≤ 4 * ZMM_SZ then memcmp_small m1 m2 size
  else memcmp_avx512_loop m1 m2 size 0

/-- Tail cases of `__memcmp_zen4` (the `switch (rem_vecs)` with fallthrough,
src/uarch/zen4/memcmp_zen4.c lines 163–208): back-anchored 32B blocks. -/
def memcmp_zen4_rem (m1 m2 : Mem) (size : Nat) : Nat → Int
  | 1 =>
    match chunkDiff m1 m2 (size - YMM_SZ) YMM_SZ with
    | some i => byteDiff m1 m2 i
    | none => 0
  | 2 =>
    match chunkDiff m1 m2 (size - 2 * YMM_SZ) YMM_SZ with
    | some i => byteDiff m1 m2 i
    | none => memcmp_zen4_rem m1 m2 size 1
  | 3 =>
    match chunkDiff m1 m2 (size - 3 * YMM_SZ) YMM_SZ with
    | some i => byteDiff m1 m2 i
    | none => memcmp_zen4_rem m1 m2 size 2
  | 4 =>
    match chunkDiff m1 m2 (size - 4 * YMM_SZ) YMM_SZ with
    | some i => byteDiff m1 m2 i
    | none => memcmp_zen4_rem m1 m2 size 3
  | _ => 0

/-- The 4×YMM main loop of `__memcmp_zen4` (lines 114–153).  Each pass tests
two pairs of 32B blocks with a combined `AND`-of-`cmpeq` movemask; when the
combined mask shows a stop, the first block's own mask picks which block,
and `tzcnt(mask+1)` is the lowest non-equal lane of that block. -/
def memcmp_zen4_loop (m1 m2 : Mem) (size offset : Nat) : Int :=
  if h : size - 4 * YMM_SZ > offset then
    match chunkDiff m1 m2 offset YMM_SZ, chunkDiff m1 m2 (offset + YMM_SZ) YMM_SZ with
    | some i, _ => byteDiff m1 m2 i
    | none, some i => byteDiff m1 m2 i
    | none, none =>
      match chunkDiff m1 m2 (offset + 2 * YMM_SZ) YMM_SZ,
            chunkDiff m1 m2 (offset + 3 * YMM_SZ) YMM_SZ with
      | some i, _ => byteDiff m1 m2 i
      | none, some i => byteDiff m1 m2 i
      | none, none => memcmp_zen4_loop m1 m2 size (offset + 4 * YMM_SZ)
  else if offset = size then 0
  else
    memcmp_zen4_rem m1 m2 size
      ((size - offset) / YMM_SZ + if (size - offset) % YMM_SZ ≠ 0 then 1 else 0)
termination_by size - offset
decreasing_by simp [YMM_SZ] at *; omega

/-- `__memcmp_zen4` (src/uarch/zen4/memcmp_zen4.c): identical ZMM front
cases for sizes ≤ 256B, then a 4×YMM loop with 32B tail blocks. -/
def memcmp_zen4 (m1 m2 : Mem) (size : Nat) : Int :=
  if size ≤ 4 * ZMM_SZ then memcmp_small m1 m2 size
  else memcmp_zen4_loop m1 m2 size 0

/-! ### Equivalence of both compare kernels with the scalar reference -/

/-- The two operands agree on every offset below `b`. -/
def eqBelow (m1 m2 : Mem) (b : Nat) : Prop := ∀ i, i < b → m1 i = m2 i

theorem eqBelow_mono {m1 m2 : Mem} {b b' : Nat} (h : b' ≤ b)
    (he : eqBelow m1 m2 b) : eqBelow m1 m2 b' :=
  fun i hi => he i (by omega)

theorem eqBelow_zero {m1 m2 : Mem} : eqBelow m1 m2 0 :=
  fun i hi => absurd hi (by omega)

theorem neqB_eq_false {m1 m2 : Mem} {i : Nat} :
    neqB m1 m2 i = false ↔ m1 i = m2 i := by
  simp [neqB]

/-- A mismatch found in a chunk whose prefix is all-equal is the global
first mismatch, so the scalar reference returns the same byte difference. -/
theorem memcmp_ref_of_chunk_some {m1 m2 : Mem} {s w j n : Nat}
    (he : eqBelow m1 m2 s) (hc : chunkDiff m1 m2 s w = some j) (hj : j < n) :
    memcmp_ref m1 m2 n = byteDiff m1 m2 j := by
  obtain ⟨h1, h2, h3, h4⟩ := firstWitness_some hc
  have : chunkDiff m1 m2 0 n = some j := by
    refine firstWitness_some_intro (Nat.zero_le j) (by omega) h3 ?_
    intro i _ hij
    by_cases hi : i < s
    · exact neqB_eq_false.mpr (he i hi)
    · exact h4 i (by omega) hij
  simp [memcmp_ref, this]

/-- Variant with the chunk end bounded by `n` instead of the index itself. -/
theorem memcmp_ref_of_chunk_some_le {m1 m2 : Mem} {s w j n : Nat}
    (he : eqBelow m1 m2 s) (hc : chunkDiff m1 m2 s w = some j)
    (hn : s + w ≤ n) : memcmp_ref m1 m2 n = byteDiff m1 m2 j :=
  memcmp_ref_of_chunk_some he hc
    (by have := (firstWitness_some hc).2.1; omega)

/-- A clean chunk extends the all-equal prefix to the end of the chunk. -/
theorem eqBelow_of_chunk_none {m1 m2 : Mem} {s w b : Nat}
    (he : eqBelow m1 m2 b) (hc : chunkDiff m1 m2 s w = none) (hs : s ≤ b) :
    eqBelow m1 m2 (s + w) := by
  intro i hi
  by_cases hib : i < s
  · exact he i (by omega)
  · exact neqB_eq_false.mp ((firstWitness_eq_none.mp hc) i (by omega) hi)

theorem memcmp_ref_of_eqBelow {m1 m2 : Mem} {n : Nat} (he : eqBelow m1 m2 n) :
    memcmp_ref m1 m2 n = 0 := by
  have : chunkDiff m1 m2 0 n = none :=
    firstWitness_eq_none.mpr fun i _ hi => neqB_eq_false.mpr (he i (by omega))
  simp [memcmp_ref, this]

theorem memcmp_small_eq_ref (m1 m2 : Mem) (size : Nat) (hbound : size ≤ 4 * ZMM_SZ) :
    memcmp_small m1 m2 size = memcmp_ref m1 m2 size := by
  have hZ : ZMM_SZ = 64 := rfl
  rw [memcmp_small]
  by_cases h1 : size ≤ ZMM_SZ
  · rw [if_pos h1, memcmp_ref]
  rw [if_neg h1]
  by_cases h2 : size ≤ 2 * ZMM_SZ
  · rw [if_pos h2]
    rcases hA : chunkDiff m1 m2 0 ZMM_SZ with _ | j
    · have heA : eqBelow m1 m2 (0 + ZMM_SZ) := eqBelow_of_chunk_none eqBelow_zero hA le_rfl
      rcases hB : chunkDiff m1 m2 (size - ZMM_SZ) ZMM_SZ with _ | j
      · have heB : eqBelow m1 m2 (size - ZMM_SZ + ZMM_SZ) :=
          eqBelow_of_chunk_none heA hB (by omega)
        rw [memcmp_ref_of_eqBelow (eqBelow_mono (by omega) heB)]
      · rw [memcmp_ref_of_chunk_some_le (eqBelow_mono (by omega) heA) hB (by omega)]
    · rw [memcmp_ref_of_chunk_some_le eqBelow_zero hA (by omega)]
  rw [if_neg h2]
  rcases hA : chunkDiff m1 m2 0 ZMM_SZ with _ | j
  · have heA : eqBelow m1 m2 (0 + ZMM_SZ) := eqBelow_of_chunk_none eqBelow_zero hA le_rfl
    rcases hB : chunkDiff m1 m2 ZMM_SZ ZMM_SZ with _ | j
    · have heB : eqBelow m1 m2 (ZMM_SZ + ZMM_SZ) :=
        eqBelow_of_chunk_none heA hB (by omega)
      rcases hC : chunkDiff m1 m2 (size - 2 * ZMM_SZ) ZMM_SZ with _ | j
      · have heC : eqBelow m1 m2 (size - 2 * ZMM_SZ + ZMM_SZ) :=
          eqBelow_of_chunk_none heB hC (by omega)
        rcases hD : chunkDiff m1 m2 (size - ZMM_SZ) ZMM_SZ with _ | j
        · have heD : eqBelow m1 m2 (size - ZMM_SZ + ZMM_SZ) :=
            eqBelow_of_chunk_none heC hD (by omega)
          rw [memcmp_ref_of_eqBelow (eqBelow_mono (by omega) heD)]
        · rw [memcmp_ref_of_chunk_some_le (eqBelow_mono (by omega) heC) hD (by omega)]
      · rw [memcmp_ref_of_chunk_some_le (eqBelow_mono (by omega) heB) hC (by omega)]
    · rw [memcmp_ref_of_chunk_some_le heA hB (by omega)]
  · rw [memcmp_ref_of_chunk_some_le eqBelow_zero hA (by omega)]

theorem memcmp_avx512_rem1_eq_ref {m1 m2 : Mem} {size : Nat}
    (hsz : ZMM_SZ ≤ size) (he : eqBelow m1 m2 (size - ZMM_SZ)) :
    memcmp_avx512_rem m1 m2 size 1 = memcmp_ref m1 m2 size := by
  rw [memcmp_avx512_rem]
  rcases hA : chunkDiff m1 m2 (size - ZMM_SZ) ZMM_SZ with _ | j
  · have := eqBelow_of_chunk_none he hA le_rfl
    rw [memcmp_ref_of_eqBelow (eqBelow_mono (by omega) this)]
  · rw [memcmp_ref_of_chunk_some_le he hA (by omega)]

theorem memcmp_avx512_rem2_eq_ref {m1 m2 : Mem} {size : Nat}
    (hsz : 2 * ZMM_SZ ≤ size) (he : eqBelow m1 m2 (size - 2 * ZMM_SZ)) :
    memcmp_avx512_rem m1 m2 size 2 = memcmp_ref m1 m2 size := by
  rw [memcmp_avx512_rem]
  rcases hA : chunkDiff m1 m2 (size - 2 * ZMM_SZ) ZMM_SZ with _ | j
  · have := eqBelow_of_chunk_none he hA le_rfl
    exact memcmp_avx512_rem1_eq_ref (by omega) (eqBelow_mono (by omega) this)
  · rw [memcmp_ref_of_chunk_some_le he hA (by omega)]

theorem memcmp_avx512_rem3_eq_ref {m1 m2 : Mem} {size : Nat}
    (hsz : 3 * ZMM_SZ ≤ size) (he : eqBelow m1 m2 (size - 3 * ZMM_SZ)) :
    memcmp_avx512_rem m1 m2 size 3 = memcmp_ref m1 m2 size := by
  rw [memcmp_avx512_rem]
  rcases hA : chunkDiff m1 m2 (size - 3 * ZMM_SZ) ZMM_SZ with _ | j
  · have := eqBelow_of_chunk_none he hA le_rfl
    exact memcmp_avx512_rem2_eq_ref (by omega) (eqBelow_mono (by omega) this)
  · rw [memcmp_ref_of_chunk_some_le he hA (by omega)]

theorem memcmp_avx512_rem4_eq_ref {m1 m2 : Mem} {size : Nat}
    (hsz : 4 * ZMM_SZ ≤ size) (he : eqBelow m1 m2 (size - 4 * ZMM_SZ)) :
    memcmp_avx512_rem m1 m2 size 4 = memcmp_ref m1 m2 size := by
  rw [memcmp_avx512_rem]
  rcases hA : chunkDiff m1 m2 (size - 4 * ZMM_SZ) ZMM_SZ with _ | j
  · have := eqBelow_of_chunk_none he hA le_rfl
    exact memcmp_avx512_rem3_eq_ref (by omega) (eqBelow_mono (by omega) this)
  · rw [memcmp_ref_of_chunk_some_le he hA (by omega)]

theorem memcmp_avx512_loop_eq_ref (m1 m2 : Mem) (size : Nat) (hsz : 4 * ZMM_SZ < size) :
    ∀ k offset, size - offset ≤ k → offset ≤ size → eqBelow m1 m2 offset →
    memcmp_avx512_loop m1 m2 size offset = memcmp_ref m1 m2 size := by
  have hZ : ZMM_SZ = 64 := rfl
  intro k
  induction k with
  | zero =>
    intro offset hk hle he
    have : offset = size := by omega
    subst this
    rw [memcmp_avx512_loop, dif_neg (by omega), if_pos rfl,
      memcmp_ref_of_eqBelow he]
  | succ k ih =>
    intro offset hk hle he
    rw [memcmp_avx512_loop]
    by_cases hg : size - 4 * ZMM_SZ > offset
    · rw [dif_pos hg]
      rcases hA : chunkDiff m1 m2 offset ZMM_SZ with _ | j
      · have heA := eqBelow_of_chunk_none he hA le_rfl
        rcases hB : chunkDiff m1 m2 (offset + ZMM_SZ) ZMM_SZ with _ | j
        · have heB := eqBelow_of_chunk_none heA hB le_rfl
          rcases hC : chunkDiff m1 m2 (offset + 2 * ZMM_SZ) ZMM_SZ with _ | j
          · have heC : eqBelow m1 m2 (offset + 2 * ZMM_SZ + ZMM_SZ) :=
              eqBelow_of_chunk_none heB hC (by omega)
            rcases hD : chunkDiff m1 m2 (offset + 3 * ZMM_SZ) ZMM_SZ with _ | j
            · have heD : eqBelow m1 m2 (offset + 3 * ZMM_SZ + ZMM_SZ) :=
                eqBelow_of_chunk_none heC hD (by omega)
              exact ih (offset + 4 * ZMM_SZ) (by omega) (by omega)
                (eqBelow_mono (by omega) heD)
            · rw [memcmp_ref_of_chunk_some_le (eqBelow_mono (by omega) heC) hD (by omega)]
          · rw [memcmp_ref_of_chunk_some_le (eqBelow_mono (by omega) heB) hC (by omega)]
        · rw [memcmp_ref_of_chunk_some_le heA hB (by omega)]
      · rw [memcmp_ref_of_chunk_some_le he hA (by omega)]
    · rw [dif_neg hg]
      by_cases heq : offset = size
      · rw [if_pos heq]
        subst heq
        rw [memcmp_ref_of_eqBelow he]
      · rw [if_neg heq]
        set V : Nat :=
          (size - offset) / ZMM_SZ + if (size - offset) % ZMM_SZ ≠ 0 then 1 else 0
          with hV
        have hVb : 1 ≤ V ∧ V ≤ 4 ∧ size - offset ≤ V * ZMM_SZ := by
          rw [hV, hZ]
          rcases eq_or_ne ((size - offset) % 64) 0 with h | h <;> simp [h] <;> omega
        have h14 : V = 1 ∨ V = 2 ∨ V = 3 ∨ V = 4 := by omega
        rcases h14 with h | h | h | h <;> rw [h] at hVb ⊢ <;>
          [ exact memcmp_avx512_rem1_eq_ref (by omega) (eqBelow_mono (by omega) he);
            exact memcmp_avx512_rem2_eq_ref (by omega) (eqBelow_mono (by omega) he);
            exact memcmp_avx512_rem3_eq_ref (by omega) (eqBelow_mono (by omega) he);
            exact memcmp_avx512_rem4_eq_ref (by omega) (eqBelow_mono (by omega) he)]

theorem memcmp_zen4_rem1_eq_ref {m1 m2 : Mem} {size : Nat}
    (hsz : YMM_SZ ≤ size) (he : eqBelow m1 m2 (size - YMM_SZ)) :
    memcmp_zen4_rem m1 m2 size 1 = memcmp_ref m1 m2 size := by
  rw [memcmp_zen4_rem]
  rcases hA : chunkDiff m1 m2 (size - YMM_SZ) YMM_SZ with _ | j
  · have := eqBelow_of_chunk_none he hA le_rfl
    rw [memcmp_ref_of_eqBelow (eqBelow_mono (by omega) this)]
  · rw [memcmp_ref_of_chunk_some_le he hA (by omega)]

theorem memcmp_zen4_rem2_eq_ref {m1 m2 : Mem} {size : Nat}
    (hsz : 2 * YMM_SZ ≤ size) (he : eqBelow m1 m2 (size - 2 * YMM_SZ)) :
    memcmp_zen4_rem m1 m2 size 2 = memcmp_ref m1 m2 size := by
  rw [memcmp_zen4_rem]
  rcases hA : chunkDiff m1 m2 (size - 2 * YMM_SZ) YMM_SZ with _ | j
  · have := eqBelow_of_chunk_none he hA le_rfl
    exact memcmp_zen4_rem1_eq_ref (by omega) (eqBelow_mono (by omega) this)
  · rw [memcmp_ref_of_chunk_some_le he hA (by omega)]

theorem memcmp_zen4_rem3_eq_ref {m1 m2 : Mem} {size : Nat}
    (hsz : 3 * YMM_SZ ≤ size) (he : eqBelow m1 m2 (size - 3 * YMM_SZ)) :
    memcmp_zen4_rem m1 m2 size 3 = memcmp_ref m1 m2 size := by
  rw [memcmp_zen4_rem]
  rcases hA : chunkDiff m1 m2 (size - 3 * YMM_SZ) YMM_SZ with _ | j
  · have := eqBelow_of_chunk_none he hA le_rfl
    exact memcmp_zen4_rem2_eq_ref (by omega) (eqBelow_mono (by omega) this)
  · rw [memcmp_ref_of_chunk_some_le he hA (by omega)]

theorem memcmp_zen4_rem4_eq_ref {m1 m2 : Mem} {size : Nat}
    (hsz : 4 * YMM_SZ ≤ size) (he : eqBelow m1 m2 (size - 4 * YMM_SZ)) :
    memcmp_zen4_rem m1 m2 size 4 = memcmp_ref m1 m2 size := by
  rw [memcmp_zen4_rem]
  rcases hA : chunkDiff m1 m2 (size - 4 * YMM_SZ) YMM_SZ with _ | j
  · have := eqBelow_of_chunk_none he hA le_rfl
    exact memcmp_zen4_rem3_eq_ref (by omega) (eqBelow_mono (by omega) this)
  · rw [memcmp_ref_of_chunk_some_le he hA (by omega)]

theorem memcmp_zen4_loop_eq_ref (m1 m2 : Mem) (size : Nat) (hsz : 4 * YMM_SZ < size) :
    ∀ k offset, size - offset ≤ k → offset ≤ size → eqBelow m1 m2 offset →
    memcmp_zen4_loop m1 m2 size offset = memcmp_ref m1 m2 size := by
  have hY : YMM_SZ = 32 := rfl
  intro k
  induction k with
  | zero =>
    intro offset hk hle he
    have : offset = size := by omega
    subst this
    rw [memcmp_zen4_loop, dif_neg (by omega), if_pos rfl, memcmp_ref_of_eqBelow he]
  | succ k ih =>
    intro offset hk hle he
    rw [memcmp_zen4_loop]
    by_cases hg : size - 4 * YMM_SZ > offset
    · rw [dif_pos hg]
      rcases hA : chunkDiff m1 m2 offset YMM_SZ with _ | j
      · have heA := eqBelow_of_chunk_none he hA le_rfl
        rcases hB : chunkDiff m1 m2 (offset + YMM_SZ) YMM_SZ with _ | j
        · have heB := eqBelow_of_chunk_none heA hB le_rfl
          rcases hC : chunkDiff m1 m2 (offset + 2 * YMM_SZ) YMM_SZ with _ | j
          · have heC : eqBelow m1 m2 (offset + 2 * YMM_SZ + YMM_SZ) :=
              eqBelow_of_chunk_none heB hC (by omega)
            rcases hD : chunkDiff m1 m2 (offset + 3 * YMM_SZ) YMM_SZ with _ | j
            · have heD : eqBelow m1 m2 (offset + 3 * YMM_SZ + YMM_SZ) :=
                eqBelow_of_chunk_none heC hD (by omega)
              exact ih (offset + 4 * YMM_SZ) (by omega) (by omega)
                (eqBelow_mono (by omega) heD)
            · rw [memcmp_ref_of_chunk_some_le (eqBelow_mono (by omega) heC) hD (by omega)]
          · rw [memcmp_ref_of_chunk_some_le (eqBelow_mono (by omega) heB) hC (by omega)]
        · rw [memcmp_ref_of_chunk_some_le heA hB (by omega)]
      · rw [memcmp_ref_of_chunk_some_le he hA (by omega)]
    · rw [dif_neg hg]
      by_cases heq : offset = size
      · rw [if_pos heq]
        subst heq
        rw [memcmp_ref_of_eqBelow he]
      · rw [if_neg heq]
        set V : Nat :=
          (size - offset) / YMM_SZ + if (size - offset) % YMM_SZ ≠ 0 then 1 else 0
          with hV
        have hVb : 1 ≤ V ∧ V ≤ 4 ∧ size - offset ≤ V * YMM_SZ := by
          rw [hV, hY]
          rcases eq_or_ne ((size - offset) % 32) 0 with h | h <;> simp [h] <;> omega
        have h14 : V = 1 ∨ V = 2 ∨ V = 3 ∨ V = 4 := by omega
        rcases h14 with h | h | h | h <;> rw [h] at hVb ⊢ <;>
          [ exact memcmp_zen4_rem1_eq_ref (by omega) (eqBelow_mono (by omega) he);
            exact memcmp_zen4_rem2_eq_ref (by omega) (eqBelow_mono (by omega) he);
            exact memcmp_zen4_rem3_eq_ref (by omega) (eqBelow_mono (by omega) he);
            exact memcmp_zen4_rem4_eq_ref (by omega) (eqBelow_mono (by omega) he)]

theorem memcmp_zen4_matches_scalar (m1 m2 : Mem) (n : Nat) :
    memcmp_zen4 m1 m2 n = memcmp_ref m1 m2 n := by
  rw [memcmp_zen4]
  by_cases h : n ≤ 4 * ZMM_SZ
  · rw [if_pos h, memcmp_small_eq_ref m1 m2 n h]
  · rw [if_neg h]
    have hZ : ZMM_SZ = 64 := rfl
    have hY : YMM_SZ = 32 := rfl
    exact memcmp_zen4_loop_eq_ref m1 m2 n (by omega) n 0 (by omega) (by omega)
      eqBelow_zero

/-- **C2.** For every pair of operands and every size, `_memcmp_avx512`
returns exactly the scalar byte-wise comparison result: the signed
difference of the first differing bytes taken as unsigned chars (hence the
same sign and the same zero/non-zero status as the scalar scan stopping at
the first mismatch), and `0` exactly when the first `n` bytes agree. -/
theorem memcmp_avx512_matches_scalar (m1 m2 : Mem) (n : Nat) :
    memcmp_avx512 m1 m2 n = memcmp_ref m1 m2 n := by
  rw [memcmp_avx512]
  by_cases h : n ≤ 4 * ZMM_SZ
  · rw [if_pos h, memcmp_small_eq_ref m1 m2 n h]
  · rw [if_neg h]
    exact memcmp_avx512_loop_eq_ref m1 m2 n (by omega) n 0 (by omega) (by omega)
      eqBelow_zero

/-- **C10.** For every pair of buffers and every size, the zen4 compare
kernel `__memcmp_zen4` (which switches to 256-bit YMM loops above 256
bytes) and the AVX-512 kernel `_memcmp_avx512` return equal values, so the
dispatcher's choice between them never changes the observable result. -/
theorem memcmp_zen4_eq_memcmp_avx512 (m1 m2 : Mem) (n : Nat) :
    memcmp_zen4 m1 m2 n = memcmp_avx512 m1 m2 n := by
  rw [memcmp_zen4_matches_scalar, memcmp_avx512_matches_scalar]

/-! ## Byte search (`_memchr_avx512`, src/isa/avx512/optimized/memchr_avx512.c)

The kernel returns `mem + index` or `NULL`; the embedding returns the
`index` as `some index` and `NULL` as `none`. -/

/-- First offset in `[base, base+w)` whose byte equals `c`:
`_tzcnt_u64(_mm512_cmpeq_epu8_mask(z0, chunk))` (absolute), `none` when the
match mask is zero. -/
def chunkMatch (m : Mem) (c : Nat) (base w : Nat) : Option Nat :=
  firstWitness (fun i => m i == c) base w

/-- The trailing remainder blocks of `_memchr_avx512` (lines 208–239):
four 64B blocks back-anchored at `size - 4*ZMM_SZ` … `size - ZMM_SZ`,
with the cascaded `match/match1/match2/match3` OR-reduction picking the
first matching block. -/
def memchr_avx512_tail (m : Mem) (c : Nat) (size : Nat) : Option Nat :=
  match chunkMatch m c (size - 4 * ZMM_SZ) ZMM_SZ with
  | some i => some i
  | none =>
  match chunkMatch m c (size - 3 * ZMM_SZ) ZMM_SZ with
  | some i => some i
  | none =>
  match chunkMatch m c (size - 2 * ZMM_SZ) ZMM_SZ with
  | some i => some i
  | none =>
  match chunkMatch m c (size - ZMM_SZ) ZMM_SZ with
  | some i => some i
  | none => none

/-- The 4×ZMM aligned main loop of `_memchr_avx512` (lines 166–201):
`sizeRed` is the decremented `size - 4*ZMM_SZ`; the loop runs while
`sizeRed >= offset` and returns the exit `offset` when no match is found. -/
def memchr_avx512_loop (m : Mem) (c : Nat) (sizeRed offset : Nat) :
    Option Nat × Nat :=
  if h : offset ≤ sizeRed then
    match chunkMatch m c offset ZMM_SZ with
    | some i => (some i, offset)
    | none =>
    match chunkMatch m c (offset + ZMM_SZ) ZMM_SZ with
    | some i => (some i, offset)
    | none =>
    match chunkMatch m c (offset + 2 * ZMM_SZ) ZMM_SZ with
    | some i => (some i, offset)
    | none =>
    match chunkMatch m c (offset + 3 * ZMM_SZ) ZMM_SZ with
    | some i => (some i, offset)
    | none => memchr_avx512_loop m c sizeRed (offset + 4 * ZMM_SZ)
  else (none, offset)
termination_by sizeRed + 1 - offset
decreasing_by simp [ZMM_SZ] at *; omega

/-- `_memchr_avx512(mem, val, size)`: `memA` is the pointer value (used for
the alignment adjustment of the main loop), `m` the bytes at offsets from
`mem`, and the broadcast byte is `(char)val`, i.e. `val % 256`. -/
def memchr_avx512 (memA : Nat) (m : Mem) (val size : Nat) : Option Nat :=
  let c := val % 256
  if size ≤ ZMM_SZ then
    -- masked load: `match &= mask` restricts hits to the first `size` lanes
    chunkMatch m c 0 size
  else if size ≤ 2 * ZMM_SZ then
    match chunkMatch m c 0 ZMM_SZ with
    | some i => some i
    | none => chunkMatch m c (size - ZMM_SZ) ZMM_SZ
  else if size ≤ 4 * ZMM_SZ then
    match chunkMatch m c 0 ZMM_SZ with
    | some i => some i
    | none =>
    match chunkMatch m c ZMM_SZ ZMM_SZ with
    | some i => some i
    | none =>
    match chunkMatch m c (size - 2 * ZMM_SZ) ZMM_SZ with
    | some i => some i
    | none => chunkMatch m c (size - ZMM_SZ) ZMM_SZ
  else
    match chunkMatch m c 0 ZMM_SZ with
    | some i => some i
    | none =>
    match chunkMatch m c ZMM_SZ ZMM_SZ with
    | some i => some i
    | none =>
    match chunkMatch m c (2 * ZMM_SZ) ZMM_SZ with
    | some i => some i
    | none =>
    match chunkMatch m c (3 * ZMM_SZ) ZMM_SZ with
    | some i => some i
    | none =>
      if 8 * ZMM_SZ < size then
        match memchr_avx512_loop m c (size - 4 * ZMM_SZ)
            (4 * ZMM_SZ - memA % ZMM_SZ) with
        | (some i, _) => some i
        | (none, off) =>
          if size = off then none
          else memchr_avx512_tail m c size
      else memchr_avx512_tail m c size

/-! ## Bounded string compare (`_strncmp_avx512`,
src/isa/avx512/optimized/strcmp_avx512.c with `STRNCMP` defined)

Addresses `a1`, `a2` are the pointer values of `str1`, `str2`; `s1`, `s2`
give the byte at each offset from those pointers.  Unbounded `while`
loops take an explicit `fuel`; `none` means the fuel ran out. -/

/-- `size_t` subtraction `a - b` with the 64-bit wraparound the source
relies on when `size < 4*ZMM_SZ` in loop bounds. -/
def usub64 (a b : Nat) : Nat := if b ≤ a then a - b else a + 2 ^ 64 - b

/-- Per-lane stop predicate of the compare kernels:
`_mm512_cmpeq_epu8_mask(z1, z0) | _mm512_cmpneq_epu8_mask(z1, z2)` —
a null byte in the first operand or a byte mismatch. -/
def stopZ (sa sb : Mem) (i : Nat) : Bool := (sa i == 0) || (sa i != sb i)

/-- First stop lane (null in `sa` or mismatch) in `[base, base+w)`. -/
def zstop (sa sb : Mem) (base w : Nat) : Option Nat :=
  firstWitness (stopZ sa sb) base w

/-- The shared `return_val` epilogue of `_strncmp_avx512`: bound check
then difference of the two bytes as unsigned chars. -/
def strncmp_retval (s1 s2 : Mem) (size idx : Nat) : Int :=
  if size ≤ idx then 0 else (s1 idx : Int) - (s2 idx : Int)

/-- The 1×ZMM aligned loop of `_strncmp_avx512` (lines 162–177): scan one
64B block per pass, `goto return_val` on a stop, bounded-size early out. -/
def strncmp_avx512_aligned1 (s1 s2 : Mem) (size : Nat) : Nat → Nat → Option Int
  | _, 0 => none
  | offset, fuel + 1 =>
    match zstop s1 s2 offset ZMM_SZ with
    | some idx => some (strncmp_retval s1 s2 size idx)
    | none =>
      if size ≤ offset + ZMM_SZ then some 0
      else strncmp_avx512_aligned1 s1 s2 size (offset + ZMM_SZ) fuel

/-- The 4×ZMM aligned loop of `_strncmp_avx512` (lines 119–161); a stop
breaks out into the 1×ZMM loop at the block where it was seen. -/
def strncmp_avx512_aligned4 (s1 s2 : Mem) (size : Nat) : Nat → Nat → Option Int
  | _, 0 => none
  | offset, fuel + 1 =>
    if offset < usub64 size (4 * ZMM_SZ) then
      match zstop s1 s2 offset ZMM_SZ with
      | some _ => strncmp_avx512_aligned1 s1 s2 size offset fuel
      | none =>
      match zstop s1 s2 (offset + ZMM_SZ) ZMM_SZ with
      | some _ => strncmp_avx512_aligned1 s1 s2 size (offset + ZMM_SZ) fuel
      | none =>
      match zstop s1 s2 (offset + 2 * ZMM_SZ) ZMM_SZ with
      | some _ => strncmp_avx512_aligned1 s1 s2 size (offset + 2 * ZMM_SZ) fuel
      | none =>
      match zstop s1 s2 (offset + 3 * ZMM_SZ) ZMM_SZ with
      | some _ => strncmp_avx512_aligned1 s1 s2 size (offset + 3 * ZMM_SZ) fuel
      | none =>
        if size ≤ offset + 4 * ZMM_SZ then some 0
        else strncmp_avx512_aligned4 s1 s2 size (offset + 4 * ZMM_SZ) fuel
    else strncmp_avx512_aligned1 s1 s2 size offset fuel

/-- The unaligned-case 4-vector inner loop of `_strncmp_avx512`
(lines 197–238): `sa` is the aligned operand (whose lanes feed the null
test), `sb` the unaligned one; a stop goes straight to `return_val`.
Returns the final `(vecs_in_page, offset)` when it exits cleanly. -/
def strncmp_avx512_una4 (sa sb s1 s2 : Mem) (size : Nat) (vecs offset : Nat) :
    Sum Int (Nat × Nat) :=
  if h : 4 ≤ vecs ∧ offset < usub64 size (4 * ZMM_SZ) then
    match zstop sa sb offset ZMM_SZ with
    | some idx => Sum.inl (strncmp_retval s1 s2 size idx)
    | none =>
    match zstop sa sb (offset + ZMM_SZ) ZMM_SZ with
    | some idx => Sum.inl (strncmp_retval s1 s2 size idx)
    | none =>
    match zstop sa sb (offset + 2 * ZMM_SZ) ZMM_SZ with
    | some idx => Sum.inl (strncmp_retval s1 s2 size idx)
    | none =>
    match zstop sa sb (offset + 3 * ZMM_SZ) ZMM_SZ with
    | some idx => Sum.inl (strncmp_retval s1 s2 size idx)
    | none => strncmp_avx512_una4 sa sb s1 s2 size (vecs - 4) (offset + 4 * ZMM_SZ)
  else Sum.inr (vecs, offset)
termination_by vecs
decreasing_by omega

/-- The unaligned-case `while (vecs_in_page--)` loop of `_strncmp_avx512`
(lines 243–258).  Returns the final `offset` when the vector budget of the
current page is exhausted. -/
def strncmp_avx512_una1 (sa sb s1 s2 : Mem) (size : Nat) :
    Nat → Nat → Sum Int Nat
  | 0, offset => Sum.inr offset
  | vecs + 1, offset =>
    match zstop sa sb offset ZMM_SZ with
    | some idx => Sum.inl (strncmp_retval s1 s2 size idx)
    | none =>
      if size ≤ offset + ZMM_SZ then Sum.inl 0
      else strncmp_avx512_una1 sa sb s1 s2 size vecs (offset + ZMM_SZ)

/-- The unaligned-case outer loop of `_strncmp_avx512` (lines 195–278):
4-vector loop, single-vector loop, then the masked page-crossing load
(`UINT64_MAX >> ((unaligned_str + offset) & (ZMM_SZ-1))`, 0xFF background
lanes never produce a stop bit).  `ua` is the unaligned pointer value.
After the crossing the `uint16_t` `vecs_in_page` — left at 65535 by the
postfix decrement of the exhausted loop — gets `PAGE_SZ/ZMM_SZ` added,
wrapping to 63. -/
def strncmp_avx512_una_outer (ua : Nat) (sa sb s1 s2 : Mem) (size : Nat) :
    Nat → Nat → Nat → Option Int
  | 0, _, _ => none
  | fuel + 1, vecs, offset =>
    match strncmp_avx512_una4 sa sb s1 s2 size vecs offset with
    | Sum.inl r => some r
    | Sum.inr (vecs1, offset1) =>
      if size ≤ offset1 then some 0
      else
        match strncmp_avx512_una1 sa sb s1 s2 size vecs1 offset1 with
        | Sum.inl r => some r
        | Sum.inr offset2 =>
          match zstop sa sb offset2 (ZMM_SZ - (ua + offset2) % ZMM_SZ) with
          | some idx => some (strncmp_retval s1 s2 size idx)
          | none =>
            if size ≤ offset2 + (ZMM_SZ - (ua + offset2) % ZMM_SZ) then some 0
            else strncmp_avx512_una_outer ua sa sb s1 s2 size fuel
              ((65535 + PAGE_SZ / ZMM_SZ) % 65536) offset2

/-- The post-head dispatch of `_strncmp_avx512` (lines 113–279): cache-line
aligned restart offset, same-alignment fast path or aligned/unaligned
split with the per-page vector budget. -/
def strncmp_avx512_main (a1 a2 : Nat) (s1 s2 : Mem) (size : Nat)
    (offset1 offset2 fuel : Nat) : Option Int :=
  let offset := ZMM_SZ - max offset1 offset2
  if offset1 = offset2 then
    strncmp_avx512_aligned4 s1 s2 size offset fuel
  else if (a1 + offset) % ZMM_SZ = 0 then
    strncmp_avx512_una_outer a2 s1 s2 s1 s2 size fuel
      ((PAGE_SZ - (a2 + offset) % PAGE_SZ) / ZMM_SZ) offset
  else
    strncmp_avx512_una_outer a1 s2 s1 s1 s2 size fuel
      ((PAGE_SZ - (a1 + offset) % PAGE_SZ) / ZMM_SZ) offset

/-- `_strncmp_avx512(str1, str2, size)`: zero-size early return, then the
page-proximity-aware first 64B (masked load with 0xFF background when
either string starts within `ZMM_SZ` of a page end), then the main loops. -/
def strncmp_avx512 (a1 a2 : Nat) (s1 s2 : Mem) (size fuel : Nat) : Option Int :=
  if size = 0 then some 0
  else if PAGE_SZ - ZMM_SZ < (a1 ||| a2) % PAGE_SZ then
    let offmax := max (a1 % ZMM_SZ) (a2 % ZMM_SZ)
    match zstop s1 s2 0 (ZMM_SZ - offmax) with
    | some idx => some (strncmp_retval s1 s2 size idx)
    | none =>
      if size ≤ ZMM_SZ - offmax then some 0
      else strncmp_avx512_main a1 a2 s1 s2 size (a1 % ZMM_SZ) (a2 % ZMM_SZ) fuel
  else
    match zstop s1 s2 0 ZMM_SZ with
    | some idx => some (strncmp_retval s1 s2 size idx)
    | none =>
      if size ≤ ZMM_SZ then some 0
      else strncmp_avx512_main a1 a2 s1 s2 size (a1 % ZMM_SZ) (a2 % ZMM_SZ) fuel

/-! ## Bounded and unbounded string copy
(`_strncpy_avx512` / `_strcpy_avx512`, src/isa/avx512/optimized/strcpy_avx512.c)

`d` is the destination bytes (indexed by offset from `dst`), `s` the source
bytes; `dstA`, `srcA` the pointer values.  A store of `w` bytes at offset
`o` updates `d` on `[o, o+w)`; loads read only `s`, which is never written
(`dst`/`src` are distinct buffers for string copy). -/

/-- Effect of one zeroing store of `w` bytes at offset `a`. -/
def setZero (d : Mem) (a w : Nat) : Mem :=
  fun x => if a ≤ x ∧ x < a + w then 0 else d x

/-- Effect of copying `w` source bytes to destination offset `o`
(the load/store pairs of the copy kernels use equal source and
destination offsets). -/
def cpy (s d : Mem) (o w : Nat) : Mem :=
  fun x => if o ≤ x ∧ x < o + w then s x else d x

/-- The 4×ZMM aligned store loop of `_fill_null_avx512` (lines 71–78). -/
def fill_null_loop (d : Mem) (base sizeRed offset : Nat) : Mem :=
  if h : offset < sizeRed then
    fill_null_loop (setZero d (base + offset) (4 * ZMM_SZ)) base sizeRed
      (offset + 4 * ZMM_SZ)
  else d
termination_by sizeRed - offset
decreasing_by simp [ZMM_SZ] at *; omega

/-- `_fill_null_avx512(mem, size)` where `mem = dst + base` has pointer
value `memA`: fills `size` bytes at destination offset `base` with nulls.
The `size < 2*ZMM_SZ` case calls `__erms_stosb(mem, 0, size)`
(base_impls/memset_erms_impls.h, not under src/).
Modelled from the spec: the dedicated zero-fill routine "fill[s] the
remainder after the terminator", so `__erms_stosb(mem, 0, size)` writes
`size` zero bytes at `mem` and nothing else. -/
def fill_null_avx512 (memA : Nat) (d : Mem) (base size : Nat) : Mem :=
  if size < 2 * ZMM_SZ then setZero d base size
  else if size ≤ 4 * ZMM_SZ then
    setZero (setZero (setZero (setZero d base ZMM_SZ)
      (base + ZMM_SZ) ZMM_SZ)
      (base + size - 2 * ZMM_SZ) ZMM_SZ)
      (base + size - ZMM_SZ) ZMM_SZ
  else
    let d1 := setZero (setZero (setZero (setZero d base ZMM_SZ)
      (base + ZMM_SZ) ZMM_SZ) (base + 2 * ZMM_SZ) ZMM_SZ)
      (base + 3 * ZMM_SZ) ZMM_SZ
    let d2 := setZero (setZero (setZero (setZero d1
      (base + size - 4 * ZMM_SZ) ZMM_SZ)
      (base + size - 3 * ZMM_SZ) ZMM_SZ)
      (base + size - 2 * ZMM_SZ) ZMM_SZ)
      (base + size - ZMM_SZ) ZMM_SZ
    if size ≤ 8 * ZMM_SZ then d2
    else fill_null_loop d2 base (size - 4 * ZMM_SZ) (4 * ZMM_SZ - memA % ZMM_SZ)

/-- One 64B block step of the bounded copy (`_strncpy_avx512` do-loop body,
lines 180–233, and page-bounded loop body, lines 241–291): aligned full
load, null scan, min(null+1, rem)-byte store with null fill on the left
branch, rem-capped full/masked store on the right. -/
def strncpy_step (dstA : Nat) (s d : Mem) (size offset : Nat) : Sum Mem Mem :=
  match chunkMatch s 0 offset ZMM_SZ with
  | some nabs =>
    let null_idx := nabs - offset
    let rem := size - offset
    let slen := if null_idx + 1 < rem then null_idx + 1 else rem
    let d1 := if ZMM_SZ ≤ slen then cpy s d offset ZMM_SZ else cpy s d offset slen
    let null_start := offset + null_idx + 1
    Sum.inl (if null_start < size then
      fill_null_avx512 (dstA + null_start) d1 null_start (size - null_start)
    else d1)
  | none =>
    let rem := size - offset
    Sum.inr (if ZMM_SZ ≤ rem then cpy s d offset ZMM_SZ else cpy s d offset rem)

/-- Counted block loop of `_strncpy_avx512`: runs `strncpy_step` up to
`iters` times (3 for the `do … while (cnt_vec--)` with `cnt_vec = 2`,
`4 - (((src+offset) & 255) >> 6)` for the page-bounded `while (cnt_vec--)`),
breaking when `offset >= size`. -/
def strncpy_vec_loop (dstA : Nat) (s : Mem) (size : Nat) :
    Nat → Mem → Nat → Sum Mem (Mem × Nat)
  | 0, d, offset => Sum.inr (d, offset)
  | k + 1, d, offset =>
    if size ≤ offset then Sum.inr (d, offset)
    else
      match strncpy_step dstA s d size offset with
      | Sum.inl dfin => Sum.inl dfin
      | Sum.inr d1 => strncpy_vec_loop dstA s size k d1 (offset + ZMM_SZ)

/-- Main 4×ZMM loop of `_strncpy_avx512` (lines 295–321): copy four
vectors while no null appears in the 256B window (`min_epu8` reduction)
and a full 4-vector step still fits below `size`. -/
def strncpy_main4 (s : Mem) (d : Mem) (size offset : Nat) : Mem × Nat :=
  if h : offset + 4 * ZMM_SZ ≤ size then
    match chunkMatch s 0 offset (4 * ZMM_SZ) with
    | some _ => (d, offset)
    | none => strncpy_main4 s (cpy s d offset (4 * ZMM_SZ)) size (offset + 4 * ZMM_SZ)
  else (d, offset)
termination_by size - offset
decreasing_by simp [ZMM_SZ] at *; omega

/-- The `handle_remaining` loop of `_strncpy_avx512` (lines 386–421):
masked loads of `min(rem, ZMM_SZ)` live bytes (`null_mask &= block`
restricts null hits to live lanes), terminator-capped store plus null
fill, else store the live bytes and advance. -/
def strncpy_handle_rem (dstA : Nat) (s : Mem) (d : Mem) (size offset : Nat) : Mem :=
  if h : offset < size then
    let rem := size - offset
    let live := min rem ZMM_SZ
    match chunkMatch s 0 offset live with
    | some nabs =>
      let null_idx := nabs - offset + 1
      let slen := if null_idx < rem then null_idx else rem
      let d1 := if ZMM_SZ ≤ slen then cpy s d offset ZMM_SZ else cpy s d offset slen
      let null_start := offset + null_idx
      if null_start < size then
        fill_null_avx512 (dstA + null_start) d1 null_start (size - null_start)
      else d1
    | none =>
      strncpy_handle_rem dstA s
        (if ZMM_SZ ≤ rem then cpy s d offset ZMM_SZ else cpy s d offset live)
        size (offset + ZMM_SZ)
  else d
termination_by size - offset
decreasing_by simp [ZMM_SZ] at *; omega

/-- Head null-found epilogue of `_strncpy_avx512` (lines 127–133 and
148–154): store `min(index+1, size)` bytes and null-fill the rest. -/
def strncpy_head_found (dstA : Nat) (s d : Mem) (size index : Nat) : Mem :=
  let slen := if index + 1 < size then index + 1 else size
  let d1 := cpy s d 0 slen
  if index + 1 < size then
    fill_null_avx512 (dstA + index + 1) d1 (index + 1) (size - (index + 1))
  else d1

/-- `_strncpy_avx512` after the page-proximity head: full first 64B load,
null scan, the three counted loops, the main 4-vector loop and the
remainder loop. -/
def strncpy_avx512_body (dstA srcA : Nat) (d s : Mem) (size : Nat) : Mem :=
  match chunkMatch s 0 0 ZMM_SZ with
  | some index => strncpy_head_found dstA s d size index
  | none =>
    let d1 := if ZMM_SZ ≤ size then cpy s d 0 ZMM_SZ else cpy s d 0 size
    match strncpy_vec_loop dstA s size 3 d1 (ZMM_SZ - srcA % ZMM_SZ) with
    | Sum.inl dfin => dfin
    | Sum.inr (d2, off2) =>
      match strncpy_vec_loop dstA s size
          (4 - (srcA + off2) % (4 * ZMM_SZ) / ZMM_SZ) d2 off2 with
      | Sum.inl dfin => dfin
      | Sum.inr (d3, off3) =>
        let r := strncpy_main4 s d3 size off3
        if r.2 < size then strncpy_handle_rem dstA s r.1 size r.2 else r.1

/-- `_strncpy_avx512(dst, src, size)`: zero-size early return (returns
`dst`, writes nothing), page-proximity masked head (0xFF background lanes
never match the null scan), then the body.  Returns the final destination
bytes and the returned pointer (always `dst`). -/
def strncpy_avx512 (dstA srcA : Nat) (d s : Mem) (size : Nat) : Mem × Nat :=
  if size = 0 then (d, dstA)
  else if PAGE_SZ - ZMM_SZ < srcA % PAGE_SZ then
    match chunkMatch s 0 0 (ZMM_SZ - srcA % ZMM_SZ) with
    | some index => (strncpy_head_found dstA s d size index, dstA)
    | none => (strncpy_avx512_body dstA srcA d s size, dstA)
  else (strncpy_avx512_body dstA srcA d s size, dstA)

/-- `copy_tail_vec` of `_strcpy_avx512` (lines 356–383, non-bounded):
back-anchored 64B load/store ending one past the null at `nabs`
(`index = offset + tzcnt - ZMM_SZ + 1`). -/
def strcpy_copy_tail (s d : Mem) (nabs : Nat) : Mem :=
  cpy s d (nabs + 1 - ZMM_SZ) ZMM_SZ

/-- One do-loop step of `_strcpy_avx512` (lines 180–233, non-bounded):
on a null, the back-anchored tail store; otherwise a full store. -/
def strcpy_step_tail (s d : Mem) (offset : Nat) : Sum Mem Mem :=
  match chunkMatch s 0 offset ZMM_SZ with
  | some nabs => Sum.inl (strcpy_copy_tail s d nabs)
  | none => Sum.inr (cpy s d offset ZMM_SZ)

/-- One page-bounded loop step of `_strcpy_avx512` (lines 241–291,
non-bounded): on a null at relative index `i`, a masked store of `i+1`
bytes (`UINT64_MAX >> (63 - index)`); otherwise a full store. -/
def strcpy_step_mask (s d : Mem) (offset : Nat) : Sum Mem Mem :=
  match chunkMatch s 0 offset ZMM_SZ with
  | some nabs => Sum.inl (cpy s d offset (nabs - offset + 1))
  | none => Sum.inr (cpy s d offset ZMM_SZ)

/-- Counted loop over a per-block step function (the `do … while` and
`while (cnt_vec--)` loops of `_strcpy_avx512`). -/
def strcpy_vec_loop (step : Mem → Nat → Sum Mem Mem) :
    Nat → Mem → Nat → Sum Mem (Mem × Nat)
  | 0, d, offset => Sum.inr (d, offset)
  | k + 1, d, offset =>
    match step d offset with
    | Sum.inl dfin => Sum.inl dfin
    | Sum.inr d1 => strcpy_vec_loop step k d1 (offset + ZMM_SZ)

/-- Main 4×ZMM `while (1)` loop of `_strcpy_avx512` (lines 297–383): copy
four vectors while the `min_epu8` reduction shows no null; on a null, the
`match1`/`match2` cascade stores the clean leading blocks and the
back-anchored tail ends at the first null.  The final `none` arm is the
vacuous case of a null-free window after a null was detected in it. -/
def strcpy_avx512_loop4 (s : Mem) : Nat → Mem → Nat → Option Mem
  | 0, _, _ => none
  | fuel + 1, d, offset =>
    match chunkMatch s 0 offset (4 * ZMM_SZ) with
    | none => strcpy_avx512_loop4 s fuel (cpy s d offset (4 * ZMM_SZ))
        (offset + 4 * ZMM_SZ)
    | some _ =>
      match chunkMatch s 0 offset ZMM_SZ with
      | some n1 => some (strcpy_copy_tail s d n1)
      | none =>
        match chunkMatch s 0 (offset + ZMM_SZ) ZMM_SZ with
        | some n2 => some (strcpy_copy_tail s (cpy s d offset ZMM_SZ) n2)
        | none =>
          let d1 := cpy s (cpy s d offset ZMM_SZ) (offset + ZMM_SZ) ZMM_SZ
          match chunkMatch s 0 (offset + 2 * ZMM_SZ) ZMM_SZ with
          | some n3 => some (strcpy_copy_tail s d1 n3)
          | none =>
            match chunkMatch s 0 (offset + 3 * ZMM_SZ) ZMM_SZ with
            | some n4 =>
              some (strcpy_copy_tail s (cpy s d1 (offset + 2 * ZMM_SZ) ZMM_SZ) n4)
            | none => none

/-- `_strcpy_avx512` after the head: do-loop (3 passes, back-anchored tail
stores), page-bounded loop (masked tail stores), then the main loop. -/
def strcpy_avx512_body (srcA : Nat) (d s : Mem) (fuel : Nat) : Option Mem :=
  match chunkMatch s 0 0 ZMM_SZ with
  | some index => some (cpy s d 0 (index + 1))
  | none =>
    let d1 := cpy s d 0 ZMM_SZ
    match strcpy_vec_loop (strcpy_step_tail s) 3 d1 (ZMM_SZ - srcA % ZMM_SZ) with
    | Sum.inl dfin => some dfin
    | Sum.inr (d2, off2) =>
      match strcpy_vec_loop (strcpy_step_mask s)
          (4 - (srcA + off2) % (4 * ZMM_SZ) / ZMM_SZ) d2 off2 with
      | Sum.inl dfin => some dfin
      | Sum.inr (d3, off3) => strcpy_avx512_loop4 s fuel d3 off3

/-- `_strcpy_avx512(dst, src)`: page-proximity masked head (a null found
there is stored with `UINT64_MAX >> (63 - index)`, i.e. `index+1` bytes),
then the body; returns the final destination bytes and the returned
pointer (always `dst`); `none` when the fuel for the unbounded main loop
runs out. -/
def strcpy_avx512 (dstA srcA : Nat) (d s : Mem) (fuel : Nat) : Option (Mem × Nat) :=
  if PAGE_SZ - ZMM_SZ < srcA % PAGE_SZ then
    match chunkMatch s 0 0 (ZMM_SZ - srcA % ZMM_SZ) with
    | some index => some (cpy s d 0 (index + 1), dstA)
    | none =>
      match strcpy_avx512_body srcA d s fuel with
      | some dfin => some (dfin, dstA)
      | none => none
  else
    match strcpy_avx512_body srcA d s fuel with
    | some dfin => some (dfin, dstA)
    | none => none

/-- **C9.** Zero-length inputs are defined, non-error cases matching a
trivial scalar reference: for all pointers (and memories), the bounded
string compare with size 0 returns 0, the bounded string copy with size 0
returns the destination pointer and writes nothing (the destination bytes
are unchanged), and find-byte over 0 bytes returns null. -/
theorem zero_length_inputs_defined :
    (∀ (a1 a2 : Nat) (s1 s2 : Mem) (fuel : Nat),
        strncmp_avx512 a1 a2 s1 s2 0 fuel = some 0) ∧
    (∀ (dstA srcA : Nat) (d s : Mem),
        strncpy_avx512 dstA srcA d s 0 = (d, dstA)) ∧
    (∀ (memA : Nat) (m : Mem) (val : Nat),
        memchr_avx512 memA m val 0 = none) := by
  refine ⟨fun a1 a2 s1 s2 fuel => ?_, fun dstA srcA d s => ?_, fun memA m val => ?_⟩
  · rw [strncmp_avx512, if_pos rfl]
  · rw [strncpy_avx512, if_pos rfl]
  · rw [memchr_avx512]
    rfl

/-! ## Capability probe and dispatch resolver
(src/cpu_features.c, src/libmem.c, src/libmem_ifunc_dispatcher.c)

The `cpuid` instruction itself is the external capability query; its
result is a register record.  The embedded resolver is the cpuid-based
`AMD_ZEN_CPU_RESOLVER` variant (dispatcher lines 51–76, used for
compilers without `znver5` support). -/

/-- `cpuid_registers` (zen_cpu_info.h): one register record returned by
the CPU identification query. -/
structure cpuid_registers where
  eax : Nat
  ebx : Nat
  ecx : Nat
  edx : Nat

/-- Modelled from the spec: the feature bit masks of zen_cpu_info.h are
not under src/; they are the standard CPUID leaf-7 bit positions of the
named features (EBX: AVX2 bit 5, ERMS bit 9, AVX512F bit 16;
ECX: VPCLMULQDQ bit 10, RDPID bit 22, MOVDIRI bit 27; EDX: FSRM bit 4;
RDSEED bit 18). -/
def AVX512_MASK : Nat := 2 ^ 16

/-- AVX2 feature bit (leaf 7 EBX bit 5). -/
def AVX2_MASK : Nat := 2 ^ 5

/-- ERMS feature bit (leaf 7 EBX bit 9). -/
def ERMS_MASK : Nat := 2 ^ 9

/-- FSRM feature bit (leaf 7 EDX bit 4). -/
def FSRM_MASK : Nat := 2 ^ 4

/-- MOVDIRI feature bit (leaf 7 ECX bit 27). -/
def MOVDIRI_MASK : Nat := 2 ^ 27

/-- VPCLMULQDQ feature bit (leaf 7 ECX bit 10). -/
def VPCLMULQDQ_MASK : Nat := 2 ^ 10

/-- RDPID feature bit (leaf 7 ECX bit 22). -/
def RDPID_MASK : Nat := 2 ^ 22

/-- RDSEED feature bit (bit 18, tested by the source against ECX). -/
def RDSEED_MASK : Nat := 2 ^ 18

/-- `is_amd()` (src/cpu_features.c lines 39–53): the leaf-0 vendor string
registers must spell "AuthenticAMD" — the XOR-OR test against the three
vendor words is zero exactly then; any non-matching vendor yields false
with no error path. -/
def is_amd (r : cpuid_registers) : Bool :=
  ((r.ebx ^^^ 0x68747541) ||| (r.edx ^^^ 0x69746E65) ||| (r.ecx ^^^ 0x444D4163)) == 0

/-- `zen_cpu_features` flags of the process-wide `zen_info` record. -/
structure zen_cpu_features where
  avx512 : Bool
  avx2 : Bool
  erms : Bool
  fsrm : Bool
  movdiri : Bool
  vpclmul : Bool
  rdpid : Bool
  rdseed : Bool
deriving DecidableEq

/-- The zero-initialized `zen_info.zen_cpu_features` global: every flag
false before (and unless) `get_cpu_capabilities` runs. -/
def zen_cpu_features_init : zen_cpu_features :=
  ⟨false, false, false, false, false, false, false, false⟩

/-- `get_cpu_capabilities()` (src/cpu_features.c lines 55–103): decode the
leaf-7 feature bits into the named flags. -/
def get_cpu_capabilities (r : cpuid_registers) : zen_cpu_features where
  avx512 := r.ebx &&& AVX512_MASK != 0
  avx2 := r.ebx &&& AVX2_MASK != 0
  erms := r.ebx &&& ERMS_MASK != 0
  fsrm := r.edx &&& FSRM_MASK != 0
  movdiri := r.ecx &&& MOVDIRI_MASK != 0
  vpclmul := r.ecx &&& VPCLMULQDQ_MASK != 0
  rdpid := r.ecx &&& RDPID_MASK != 0
  rdseed := r.ecx &&& RDSEED_MASK != 0

/-- The feature-flag part of `libmem_init()` (src/libmem.c lines 47–68):
`get_cpu_capabilities` runs only when `is_amd()` holds; otherwise the
zero-initialized record is left untouched.  `vendor` is the leaf-0 query
result, `leaf7` the leaf-7 one. -/
def libmem_init_features (vendor leaf7 : cpuid_registers) : zen_cpu_features :=
  if is_amd vendor then get_cpu_capabilities leaf7 else zen_cpu_features_init

/-- One kernel variant name per microarchitecture generation plus the
portable fallback, as produced by the resolver macro. -/
inductive KernelVariant where
  | zen5 | zen4 | zen3 | zen2 | zen1 | system
deriving DecidableEq

/-- The cpuid-based `AMD_ZEN_CPU_RESOLVER` macro
(src/libmem_ifunc_dispatcher.c lines 51–76): it re-issues the leaf-7
query and selects a generation from the feature bits alone — the vendor
string is never consulted. -/
def AMD_ZEN_CPU_RESOLVER (leaf7 : cpuid_registers) : KernelVariant :=
  if leaf7.ebx &&& AVX512_MASK ≠ 0 then
    if leaf7.ecx &&& MOVDIRI_MASK ≠ 0 then .zen5 else .zen4
  else if leaf7.ebx &&& AVX2_MASK ≠ 0 then
    if leaf7.ecx &&& VPCLMULQDQ_MASK ≠ 0 then .zen3
    else if leaf7.ecx &&& RDPID_MASK ≠ 0 then .zen2
    else if leaf7.ecx &&& RDSEED_MASK ≠ 0 then .zen1
    else .system
  else .system

/-- **C8 (counterexample).** The claim "the dispatch resolver binds every
public primitive symbol to the portable fallback whenever vendor detection
fails, for every combination of feature bits" is false: an all-zero
vendor-leaf record is not AMD, yet a leaf-7 record reporting the AVX512
bit makes the cpuid-based resolver return the zen4 variant — not the
system fallback. -/
theorem resolver_ignores_vendor_counterexample :
    is_amd ⟨0, 0, 0, 0⟩ = false ∧
    AMD_ZEN_CPU_RESOLVER ⟨7, AVX512_MASK, 0, 0⟩ = KernelVariant.zen4 ∧
    KernelVariant.zen4 ≠ KernelVariant.system := by
  refine ⟨by decide, ?_, by decide⟩
  rw [AMD_ZEN_CPU_RESOLVER]
  norm_num [AVX512_MASK, MOVDIRI_MASK]

/-- **C8 (amended).** If the vendor query yields a non-AMD vendor string,
all feature flags of the capability record are left false and no error is
raised; the cpuid-based dispatch resolver, however, never consults the
vendor: it binds by the reported leaf-7 feature bits alone, and the
system fallback is selected exactly when neither the AVX512 bit nor the
AVX2 bit together with one of VPCLMULQDQ/RDPID/RDSEED is reported. -/
theorem vendor_mismatch_leaves_flags_false (vendor leaf7 : cpuid_registers)
    (h : is_amd vendor = false) :
    libmem_init_features vendor leaf7 = zen_cpu_features_init ∧
    (AMD_ZEN_CPU_RESOLVER leaf7 = KernelVariant.system ↔
      (leaf7.ebx &&& AVX512_MASK = 0 ∧
        (leaf7.ebx &&& AVX2_MASK = 0 ∨
          (leaf7.ecx &&& VPCLMULQDQ_MASK = 0 ∧ leaf7.ecx &&& RDPID_MASK = 0 ∧
            leaf7.ecx &&& RDSEED_MASK = 0)))) := by
  constructor
  · rw [libmem_init_features, h]
    simp
  · rw [AMD_ZEN_CPU_RESOLVER]
    split_ifs with h1 h2 h3 h4 h5 h6 <;> simp_all

/-- Witness for the amended C8 theorem at a concrete non-AMD record. -/
theorem vendor_mismatch_leaves_flags_false_witness :
    libmem_init_features ⟨0, 0, 0, 0⟩ ⟨7, 0, 0, 0⟩ = zen_cpu_features_init ∧
    (AMD_ZEN_CPU_RESOLVER ⟨7, 0, 0, 0⟩ = KernelVariant.system ↔
      ((⟨7, 0, 0, 0⟩ : cpuid_registers).ebx &&& AVX512_MASK = 0 ∧
        ((⟨7, 0, 0, 0⟩ : cpuid_registers).ebx &&& AVX2_MASK = 0 ∨
          ((⟨7, 0, 0, 0⟩ : cpuid_registers).ecx &&& VPCLMULQDQ_MASK = 0 ∧
            (⟨7, 0, 0, 0⟩ : cpuid_registers).ecx &&& RDPID_MASK = 0 ∧
            (⟨7, 0, 0, 0⟩ : cpuid_registers).ecx &&& RDSEED_MASK = 0)))) :=
  vendor_mismatch_leaves_flags_false ⟨0, 0, 0, 0⟩ ⟨7, 0, 0, 0⟩ (by decide)

/-! ## Unbounded string compare
(`_strcmp_avx2`, src/isa/avx2/optimized/strcmp_avx2.c, and `__strcmp_zen4`,
src/uarch/zen4/strcmp_zen4.c)

These kernels detect the terminator with a *signed* compare:
`y_null = _mm256_cmpgt_epi8(y1, y0)` marks a lane as "live" only when the
first operand's byte, read as a signed 8-bit integer, is strictly
positive, i.e. lies in 1..127.  A lane therefore stops the scan when the
bytes differ, the byte is 0 — or the byte has the high bit set. -/

/-- Per-lane stop predicate of the `cmpeq` + signed-`cmpgt` movemask trick
(`~(equal ∧ first byte ∈ 1..127)`): mismatch, null, or high-bit byte. -/
def stopSigned (sa sb : Mem) (i : Nat) : Bool :=
  (sa i != sb i) || (sa i == 0) || (127 < sa i)

/-- First stop lane under the signed null-detection, in `[base, base+w)`. -/
def ystop (sa sb : Mem) (base w : Nat) : Option Nat :=
  firstWitness (stopSigned sa sb) base w

/-- One overlapped head/tail pass of `_strcmp_ble_ymm` at sub-vector
granularity `w` (2, 4, 8 or 16 bytes): window `[0, w)` then window
`[size-w, size)`, returning the stop index relative to `base`, or
`YMM_SZ` when no lane stops. -/
def strcmp_ble_half (s1 s2 : Mem) (base size w : Nat) : Nat :=
  match ystop s1 s2 base w with
  | some j => j - base
  | none =>
    match ystop s1 s2 (base + size - w) w with
    | some j => j - base
    | none => YMM_SZ

/-- `_strcmp_ble_ymm(str1, str2, size)` (strcmp_avx2.c lines 35–133) with
`str1 = s1+base`, `str2 = s2+base`: compare at the smallest natural
granularity with overlapping start/end anchored loads; returns the
relative index of the first mismatch/null/high-bit stop, or `YMM_SZ` when
the first `size` bytes are equal, positive and non-null.  Sizes above
`2*XMM_SZ` fall through to `return YMM_SZ`. -/
def strcmp_ble_ymm (s1 s2 : Mem) (base size : Nat) : Nat :=
  if size = 1 then
    if s1 base == s2 base && !(s1 base == 0) then YMM_SZ else 0
  else if size ≤ 2 * WORD_SZ then strcmp_ble_half s1 s2 base size WORD_SZ
  else if size ≤ 2 * DWORD_SZ then strcmp_ble_half s1 s2 base size DWORD_SZ
  else if size ≤ 2 * QWORD_SZ then strcmp_ble_half s1 s2 base size QWORD_SZ
  else if size ≤ 2 * XMM_SZ then strcmp_ble_half s1 s2 base size XMM_SZ
  else YMM_SZ

/-- Aligned-case 1×YMM `while (1)` loop of `_strcmp_avx2`
(lines 309–323): on a stop the kernel breaks out and returns the byte
difference at `tzcnt(ret) + offset`. -/
def strcmp_avx2_aligned1 (s1 s2 : Mem) : Nat → Nat → Option Int
  | _, 0 => none
  | offset, fuel + 1 =>
    match ystop s1 s2 offset YMM_SZ with
    | some idx => some (byteDiff s1 s2 idx)
    | none => strcmp_avx2_aligned1 s1 s2 (offset + YMM_SZ) fuel

/-- Aligned-case 4×YMM `while (1)` loop of `_strcmp_avx2`
(lines 262–308): a stop breaks into the 1×YMM loop at the block where it
was seen. -/
def strcmp_avx2_aligned4 (s1 s2 : Mem) : Nat → Nat → Option Int
  | _, 0 => none
  | offset, fuel + 1 =>
    match ystop s1 s2 offset YMM_SZ with
    | some _ => strcmp_avx2_aligned1 s1 s2 offset fuel
    | none =>
    match ystop s1 s2 (offset + YMM_SZ) YMM_SZ with
    | some _ => strcmp_avx2_aligned1 s1 s2 (offset + YMM_SZ) fuel
    | none =>
    match ystop s1 s2 (offset + 2 * YMM_SZ) YMM_SZ with
    | some _ => strcmp_avx2_aligned1 s1 s2 (offset + 2 * YMM_SZ) fuel
    | none =>
    match ystop s1 s2 (offset + 3 * YMM_SZ) YMM_SZ with
    | some _ => strcmp_avx2_aligned1 s1 s2 (offset + 3 * YMM_SZ) fuel
    | none => strcmp_avx2_aligned4 s1 s2 (offset + 4 * YMM_SZ) fuel

/-- Unaligned-case 4-vector inner loop of `_strcmp_avx2` (lines 345–396):
`sa` is the aligned operand (null test on its lanes), stop goes straight
to the final `return`. -/
def strcmp_avx2_una4 (sa sb s1 s2 : Mem) (vecs offset : Nat) :
    Sum Int (Nat × Nat) :=
  if h : 4 ≤ vecs then
    match ystop sa sb offset YMM_SZ with
    | some idx => Sum.inl (byteDiff s1 s2 idx)
    | none =>
    match ystop sa sb (offset + YMM_SZ) YMM_SZ with
    | some idx => Sum.inl (byteDiff s1 s2 idx)
    | none =>
    match ystop sa sb (offset + 2 * YMM_SZ) YMM_SZ with
    | some idx => Sum.inl (byteDiff s1 s2 idx)
    | none =>
    match ystop sa sb (offset + 3 * YMM_SZ) YMM_SZ with
    | some idx => Sum.inl (byteDiff s1 s2 idx)
    | none => strcmp_avx2_una4 sa sb s1 s2 (vecs - 4) (offset + 4 * YMM_SZ)
  else Sum.inr (vecs, offset)
termination_by vecs
decreasing_by omega

/-- Unaligned-case `while (vecs_in_page--)` loop of `_strcmp_avx2`
(lines 397–418). -/
def strcmp_avx2_una1 (sa sb s1 s2 : Mem) : Nat → Nat → Sum Int Nat
  | 0, offset => Sum.inr offset
  | vecs + 1, offset =>
    match ystop sa sb offset YMM_SZ with
    | some idx => Sum.inl (byteDiff s1 s2 idx)
    | none => strcmp_avx2_una1 sa sb s1 s2 vecs (offset + YMM_SZ)

/-- Unaligned-case outer loop of `_strcmp_avx2` (lines 340–437): 4-vector
loop, single-vector loop, then `_strcmp_ble_ymm` on the
`YMM_SZ - mask_offset` bytes left in the unaligned operand's page; the
wrapped `uint16_t` `vecs_in_page` (65535 after the postfix decrement)
plus `PAGE_SZ/YMM_SZ` restarts the budget at 127. -/
def strcmp_avx2_una_outer (ua : Nat) (sa sb s1 s2 : Mem) :
    Nat → Nat → Nat → Option Int
  | 0, _, _ => none
  | fuel + 1, vecs, offset =>
    match strcmp_avx2_una4 sa sb s1 s2 vecs offset with
    | Sum.inl r => some r
    | Sum.inr (vecs1, offset1) =>
      match strcmp_avx2_una1 sa sb s1 s2 vecs1 offset1 with
      | Sum.inl r => some r
      | Sum.inr offset2 =>
        let c := strcmp_ble_ymm sa sb offset2 (YMM_SZ - (ua + offset2) % YMM_SZ)
        if c ≠ YMM_SZ then some (byteDiff s1 s2 (offset2 + c))
        else strcmp_avx2_una_outer ua sa sb s1 s2 fuel
          ((65535 + PAGE_SZ / YMM_SZ) % 65536) offset2

/-- Post-head dispatch of `_strcmp_avx2` (lines 253–444). -/
def strcmp_avx2_main (a1 a2 : Nat) (s1 s2 : Mem) (offset1 offset2 fuel : Nat) :
    Option Int :=
  let offset := 2 * YMM_SZ - max offset1 offset2
  if offset1 = offset2 then
    strcmp_avx2_aligned4 s1 s2 offset fuel
  else if (a1 + offset) % (2 * YMM_SZ) = 0 then
    strcmp_avx2_una_outer a2 s1 s2 s1 s2 fuel
      ((PAGE_SZ - (a2 + offset) % PAGE_SZ) / YMM_SZ) offset
  else
    strcmp_avx2_una_outer a1 s2 s1 s1 s2 fuel
      ((PAGE_SZ - (a1 + offset) % PAGE_SZ) / YMM_SZ) offset

/-- `_strcmp_avx2(str1, str2)` (strcmp_avx2.c lines 138–445, `STRNCMP`
not defined): page-proximity head using `_strcmp_ble_ymm`, or two 32B
blocks with the signed null-detection, then the main loops. -/
def strcmp_avx2 (a1 a2 : Nat) (s1 s2 : Mem) (fuel : Nat) : Option Int :=
  if PAGE_SZ - 2 * YMM_SZ < (a1 ||| a2) % PAGE_SZ then
    let offset1 := a1 % (2 * YMM_SZ)
    let offset2 := a2 % (2 * YMM_SZ)
    if max offset1 offset2 < YMM_SZ then
      match ystop s1 s2 0 YMM_SZ with
      | some idx => some (byteDiff s1 s2 idx)
      | none =>
        let c := strcmp_ble_ymm s1 s2 YMM_SZ (YMM_SZ - max offset1 offset2)
        if c ≠ YMM_SZ then some (byteDiff s1 s2 (YMM_SZ + c))
        else strcmp_avx2_main a1 a2 s1 s2 offset1 offset2 fuel
    else
      let c := strcmp_ble_ymm s1 s2 0 (2 * YMM_SZ - max offset1 offset2)
      if c ≠ YMM_SZ then some (byteDiff s1 s2 c)
      else strcmp_avx2_main a1 a2 s1 s2 offset1 offset2 fuel
  else
    match ystop s1 s2 0 YMM_SZ with
    | some idx => some (byteDiff s1 s2 idx)
    | none =>
    match ystop s1 s2 YMM_SZ YMM_SZ with
    | some idx => some (byteDiff s1 s2 idx)
    | none =>
      strcmp_avx2_main a1 a2 s1 s2 (a1 % (2 * YMM_SZ)) (a2 % (2 * YMM_SZ)) fuel

/-- Aligned-case 4×ZMM `while (1)` loop of `__strcmp_zen4`
(strcmp_zen4.c lines 116–150): proper unsigned null/mismatch masks; a
stop breaks straight to the final return. -/
def strcmp_zen4_aligned (s1 s2 : Mem) : Nat → Nat → Option Int
  | _, 0 => none
  | offset, fuel + 1 =>
    match zstop s1 s2 offset ZMM_SZ with
    | some idx => some (byteDiff s1 s2 idx)
    | none =>
    match zstop s1 s2 (offset + ZMM_SZ) ZMM_SZ with
    | some idx => some (byteDiff s1 s2 idx)
    | none =>
    match zstop s1 s2 (offset + 2 * ZMM_SZ) ZMM_SZ with
    | some idx => some (byteDiff s1 s2 idx)
    | none =>
    match zstop s1 s2 (offset + 3 * ZMM_SZ) ZMM_SZ with
    | some idx => some (byteDiff s1 s2 idx)
    | none => strcmp_zen4_aligned s1 s2 (offset + 4 * ZMM_SZ) fuel

/-- Unaligned-case 4-vector inner loop of `__strcmp_zen4`
(lines 170–210). -/
def strcmp_zen4_una4 (sa sb s1 s2 : Mem) (vecs offset : Nat) :
    Sum Int (Nat × Nat) :=
  if h : 4 ≤ vecs then
    match zstop sa sb offset ZMM_SZ with
    | some idx => Sum.inl (byteDiff s1 s2 idx)
    | none =>
    match zstop sa sb (offset + ZMM_SZ) ZMM_SZ with
    | some idx => Sum.inl (byteDiff s1 s2 idx)
    | none =>
    match zstop sa sb (offset + 2 * ZMM_SZ) ZMM_SZ with
    | some idx => Sum.inl (byteDiff s1 s2 idx)
    | none =>
    match zstop sa sb (offset + 3 * ZMM_SZ) ZMM_SZ with
    | some idx => Sum.inl (byteDiff s1 s2 idx)
    | none => strcmp_zen4_una4 sa sb s1 s2 (vecs - 4) (offset + 4 * ZMM_SZ)
  else Sum.inr (vecs, offset)
termination_by vecs
decreasing_by omega

/-- Unaligned-case `while (vecs_in_page--)` loop of `__strcmp_zen4`
(lines 211–225). -/
def strcmp_zen4_una1 (sa sb s1 s2 : Mem) : Nat → Nat → Sum Int Nat
  | 0, offset => Sum.inr offset
  | vecs + 1, offset =>
    match zstop sa sb offset ZMM_SZ with
    | some idx => Sum.inl (byteDiff s1 s2 idx)
    | none => strcmp_zen4_una1 sa sb s1 s2 vecs (offset + ZMM_SZ)

/-- Unaligned-case outer loop of `__strcmp_zen4` (lines 168–241): masked
page-crossing load with 0xFF background (`UINT64_MAX >>
((unaligned+offset) & 63)` live lanes), `uint16_t` budget wrap to 63. -/
def strcmp_zen4_una_outer (ua : Nat) (sa sb s1 s2 : Mem) :
    Nat → Nat → Nat → Option Int
  | 0, _, _ => none
  | fuel + 1, vecs, offset =>
    match strcmp_zen4_una4 sa sb s1 s2 vecs offset with
    | Sum.inl r => some r
    | Sum.inr (vecs1, offset1) =>
      match strcmp_zen4_una1 sa sb s1 s2 vecs1 offset1 with
      | Sum.inl r => some r
      | Sum.inr offset2 =>
        match zstop sa sb offset2 (ZMM_SZ - (ua + offset2) % ZMM_SZ) with
        | some idx => some (byteDiff s1 s2 idx)
        | none => strcmp_zen4_una_outer ua sa sb s1 s2 fuel
            ((65535 + PAGE_SZ / ZMM_SZ) % 65536) offset2

/-- Post-head dispatch of `__strcmp_zen4` (lines 106–244). -/
def strcmp_zen4_main (a1 a2 : Nat) (s1 s2 : Mem) (offset1 offset2 fuel : Nat) :
    Option Int :=
  let offset := ZMM_SZ - max offset1 offset2
  if offset1 = offset2 then
    strcmp_zen4_aligned s1 s2 offset fuel
  else if (a1 + offset) % ZMM_SZ = 0 then
    strcmp_zen4_una_outer a2 s1 s2 s1 s2 fuel
      ((PAGE_SZ - (a2 + offset) % PAGE_SZ) / ZMM_SZ) offset
  else
    strcmp_zen4_una_outer a1 s2 s1 s1 s2 fuel
      ((PAGE_SZ - (a1 + offset) % PAGE_SZ) / ZMM_SZ) offset

/-- `__strcmp_zen4(str1, str2)` (strcmp_zen4.c lines 34–245):
page-proximity head via `_strcmp_ble_ymm` or one/two 32B blocks with the
signed null-detection, then ZMM loops with unsigned null masks. -/
def strcmp_zen4 (a1 a2 : Nat) (s1 s2 : Mem) (fuel : Nat) : Option Int :=
  if PAGE_SZ - ZMM_SZ < (a1 ||| a2) % PAGE_SZ then
    let offset1 := a1 % ZMM_SZ
    let offset2 := a2 % ZMM_SZ
    if max offset1 offset2 < YMM_SZ then
      match ystop s1 s2 0 YMM_SZ with
      | some idx => some (byteDiff s1 s2 idx)
      | none =>
        let c := strcmp_ble_ymm s1 s2 YMM_SZ (YMM_SZ - max offset1 offset2)
        if c ≠ YMM_SZ then some (byteDiff s1 s2 (YMM_SZ + c))
        else strcmp_zen4_main a1 a2 s1 s2 offset1 offset2 fuel
    else
      let c := strcmp_ble_ymm s1 s2 0 (ZMM_SZ - max offset1 offset2)
      if c ≠ YMM_SZ then some (byteDiff s1 s2 c)
      else strcmp_zen4_main a1 a2 s1 s2 offset1 offset2 fuel
  else
    match ystop s1 s2 0 YMM_SZ with
    | some idx => some (byteDiff s1 s2 idx)
    | none =>
    match ystop s1 s2 YMM_SZ YMM_SZ with
    | some idx => some (byteDiff s1 s2 idx)
    | none =>
      strcmp_zen4_main a1 a2 s1 s2 (a1 % ZMM_SZ) (a2 % ZMM_SZ) fuel

/-- Standard C `strcmp` reference: scan from index 0, stop at the first
index whose bytes differ or whose first-operand byte is null, and return
the difference of the unsigned bytes there (`bound` limits the scan; any
bound beyond the stop index gives the same answer). -/
def strcmp_c_ref (s1 s2 : Mem) (bound : Nat) : Option Int :=
  match firstWitness (fun i => (s1 i != s2 i) || (s1 i == 0)) 0 bound with
  | some i => some (byteDiff s1 s2 i)
  | none => none

/-- First failing string: bytes 0x80, 'a', then the terminator. -/
def strcmp_ex1 : Mem := fun i => [0x80, 0x61, 0].getD i 0

/-- Second failing string: bytes 0x80, 'b', then the terminator. -/
def strcmp_ex2 : Mem := fun i => [0x80, 0x62, 0].getD i 0

/-- **C3.** The unbounded string compare does *not* match the standard C
`strcmp` for bytes with the high bit set: on `"\x80a"` vs `"\x80b"`
(placed at address 0, far from any page end) both `_strcmp_avx2` and
`__strcmp_zen4` stop at index 0 — the signed `cmpgt` null-detection
treats the equal byte 0x80 as a terminator — and return 0, while C
`strcmp` returns the negative difference `'a' - 'b'` at index 1. -/
theorem strcmp_high_bit_divergence :
    strcmp_avx2 0 0 strcmp_ex1 strcmp_ex2 5 = some 0 ∧
    strcmp_zen4 0 0 strcmp_ex1 strcmp_ex2 5 = some 0 ∧
    strcmp_c_ref strcmp_ex1 strcmp_ex2 5 = some (-1) := by
  refine ⟨?_, ?_, ?_⟩ <;> decide

/-! ## Memory copy and move
(`_memcpy_avx512` with and without `MEMMOVE_AVX512`,
src/isa/avx512/optimized/memcpy_impl_avx512.c)

Here memory is one absolute address space `m : Mem`; `dst` and `src` are
base addresses and the regions may overlap (move).  The page-safe
load/store helpers of base_impls/load_store_impls.h are not under src/;
each is modelled from the spec (§4.3/§4.4): head and tail vectors are
loaded *before* they are stored, sub-vector regions are covered by two
overlapping partial accesses anchored at both ends that touch no byte
outside the region, and the unrolled loops perform their loads before
their stores within each block. -/

/-- A vector register holding the `w` bytes at address `a` of `m`. -/
def loadVec (m : Mem) (a : Nat) : Nat → Nat := fun i => m (a + i)

/-- Store `w` bytes of register `r` at address `a`. -/
def storeVec (m : Mem) (a : Nat) (r : Nat → Nat) (w : Nat) : Mem :=
  fun x => if a ≤ x ∧ x < a + w then r (x - a) else m x

/-- One block copy of `w` bytes from `src` to `dst` whose loads all
precede its stores (they read the incoming memory). -/
def blockCopy (m : Mem) (dst src w : Nat) : Mem :=
  fun x => if dst ≤ x ∧ x < dst + w then m (src + (x - dst)) else m x

/-- The scratch-buffer reference for copy/move: the `n` source bytes are
read out of the original memory first, then written to `dst`; every byte
outside `[dst, dst+n)` is unchanged. -/
def copy_ref (m : Mem) (dst src n : Nat) : Mem :=
  fun x => if dst ≤ x ∧ x < dst + n then m (src + (x - dst)) else m x

/-- Modelled from the spec: `__load_store_ble_zmm_vec(dst, src, size)`
(size ≤ one vector) covers the region with two overlapping partial
accesses anchored at both ends, loads before stores, touching exactly
`[dst, dst+size)`. -/
def load_store_ble_zmm_vec (m : Mem) (dst src size : Nat) : Mem :=
  blockCopy m dst src size

/-- Modelled from the spec: `__load_store_zmm_vec(dst, src, offset)` —
one 64B vector copied at `offset`. -/
def load_store_zmm_vec (m : Mem) (dst src offset : Nat) : Mem :=
  blockCopy m (dst + offset) (src + offset) ZMM_SZ

/-- Modelled from the spec: `__load_store_le_2zmm_vec(dst, src, size)` —
head vector at 0 and tail vector at `size - ZMM_SZ`, both loaded before
either store. -/
def load_store_le_2zmm_vec (m : Mem) (dst src size : Nat) : Mem :=
  let r0 := loadVec m src
  let r1 := loadVec m (src + size - ZMM_SZ)
  storeVec (storeVec m dst r0 ZMM_SZ) (dst + size - ZMM_SZ) r1 ZMM_SZ

/-- Modelled from the spec: `__load_store_le_4zmm_vec(dst, src, size)` —
two head vectors and two tail vectors, all four loaded before any store. -/
def load_store_le_4zmm_vec (m : Mem) (dst src size : Nat) : Mem :=
  let r0 := loadVec m src
  let r1 := loadVec m (src + ZMM_SZ)
  let r2 := loadVec m (src + size - 2 * ZMM_SZ)
  let r3 := loadVec m (src + size - ZMM_SZ)
  storeVec (storeVec (storeVec (storeVec m dst r0 ZMM_SZ)
    (dst + ZMM_SZ) r1 ZMM_SZ)
    (dst + size - 2 * ZMM_SZ) r2 ZMM_SZ)
    (dst + size - ZMM_SZ) r3 ZMM_SZ

/-- Modelled from the spec: `__load_store_le_8zmm_vec(dst, src, size)` —
four head vectors and four tail vectors, all eight loaded before any
store. -/
def load_store_le_8zmm_vec (m : Mem) (dst src size : Nat) : Mem :=
  let r0 := loadVec m src
  let r1 := loadVec m (src + ZMM_SZ)
  let r2 := loadVec m (src + 2 * ZMM_SZ)
  let r3 := loadVec m (src + 3 * ZMM_SZ)
  let r4 := loadVec m (src + size - 4 * ZMM_SZ)
  let r5 := loadVec m (src + size - 3 * ZMM_SZ)
  let r6 := loadVec m (src + size - 2 * ZMM_SZ)
  let r7 := loadVec m (src + size - ZMM_SZ)
  storeVec (storeVec (storeVec (storeVec (storeVec (storeVec (storeVec
    (storeVec m dst r0 ZMM_SZ)
    (dst + ZMM_SZ) r1 ZMM_SZ)
    (dst + 2 * ZMM_SZ) r2 ZMM_SZ)
    (dst + 3 * ZMM_SZ) r3 ZMM_SZ)
    (dst + size - 4 * ZMM_SZ) r4 ZMM_SZ)
    (dst + size - 3 * ZMM_SZ) r5 ZMM_SZ)
    (dst + size - 2 * ZMM_SZ) r6 ZMM_SZ)
    (dst + size - ZMM_SZ) r7 ZMM_SZ

/-- Modelled from the spec: the forward unrolled copy loops
(`__{aligned,unaligned}_load_…_store_{4,8}zmm_vec_loop[_pftch]`): per
pass, `w` bytes (4 or 8 vectors) are loaded and then stored at the same
offset, while `offset < limit`; returns the final offset.  Alignment,
prefetch and non-temporal store choice do not change the copied values. -/
def vec_loop_fwd (w : Nat) (m : Mem) (dst src limit offset : Nat) : Mem × Nat :=
  if h : offset < limit ∧ 0 < w then
    vec_loop_fwd w (blockCopy m (dst + offset) (src + offset) w) dst src limit
      (offset + w)
  else (m, offset)
termination_by limit - offset
decreasing_by omega

/-- Modelled from the spec: the backward unrolled copy loops
(`__…_4zmm_vec_loop_bkwd`): per pass the 4-vector block ending at `sz` is
loaded then stored, `sz` descending while `limit < sz`; returns the final
`sz`. -/
def vec_loop_bkwd (w : Nat) (m : Mem) (dst src sz limit : Nat) : Mem × Nat :=
  if h : limit < sz ∧ 0 < w then
    vec_loop_bkwd w (blockCopy m (dst + (sz - w)) (src + (sz - w)) w) dst src
      (sz - w) limit
  else (m, sz)
termination_by sz
decreasing_by omega

/-- The tail dispatch of `_memcpy_avx512` (lines 163–172): `rem_vecs`
from the at-most-512-byte remainder (`(rem & 0x3C0) >> 6` is
`rem / 64 % 16`, `!!(rem & 0x3F)` is `rem % 64 ≠ 0`), then a back-anchored
8/4/2/1-vector tail. -/
def memcpy_avx512_tail (m : Mem) (dst src size rem_data : Nat) : Mem :=
  let rem_vecs := rem_data / ZMM_SZ % 16 + if rem_data % ZMM_SZ ≠ 0 then 1 else 0
  if 4 < rem_vecs then
    load_store_le_8zmm_vec m (dst + size - 8 * ZMM_SZ) (src + size - 8 * ZMM_SZ)
      (8 * ZMM_SZ)
  else if 2 < rem_vecs then
    load_store_le_4zmm_vec m (dst + size - 4 * ZMM_SZ) (src + size - 4 * ZMM_SZ)
      (4 * ZMM_SZ)
  else if rem_vecs = 2 then
    load_store_le_2zmm_vec m (dst + size - 2 * ZMM_SZ) (src + size - 2 * ZMM_SZ)
      (2 * ZMM_SZ)
  else load_store_zmm_vec m (dst + size - ZMM_SZ) (src + size - ZMM_SZ) 0

/-- The shared large-copy path of `_memcpy_avx512` (lines 123–174):
512B head, threshold-selected unrolled loop when `size > 16*ZMM_SZ`
(`l2` is `zen_info.zen_cache_info.l2_per_core`, `nt` is
`__nt_start_threshold`), then the remainder tail. -/
def memcpy_avx512_large (l2 nt : Nat) (m : Mem) (dst src size : Nat) : Mem :=
  let m1 := load_store_le_8zmm_vec m dst src (8 * ZMM_SZ)
  if 16 * ZMM_SZ < size then
    let dst_align := dst % ZMM_SZ
    let offset := 8 * ZMM_SZ - dst_align
    let r :=
      if src % ZMM_SZ = dst_align then
        if size < l2 then
          vec_loop_fwd (4 * ZMM_SZ) m1 dst src (size - 8 * ZMM_SZ) offset
        else if size < nt then
          vec_loop_fwd (4 * ZMM_SZ) m1 dst src (size - 8 * ZMM_SZ) offset
        else
          vec_loop_fwd (8 * ZMM_SZ) m1 dst src (size - 8 * ZMM_SZ) offset
      else
        if size < nt then
          vec_loop_fwd (4 * ZMM_SZ) m1 dst src (size - 8 * ZMM_SZ) offset
        else
          vec_loop_fwd (4 * ZMM_SZ) m1 dst src (size - 8 * ZMM_SZ) offset
    memcpy_avx512_tail r.1 dst src size (size - r.2)
  else memcpy_avx512_tail m1 dst src size (size - 8 * ZMM_SZ)

/-- `_memcpy_avx512(dst, src, size)` (memcpy_impl_avx512.c lines 37–175,
`MEMMOVE_AVX512` not defined): tiny head/tail paths up to 128B, the
double 4-vector head/tail cover up to 512B, then the large-copy path.
Returns the final memory and the returned pointer (always `dst`). -/
def memcpy_avx512 (l2 nt : Nat) (m : Mem) (dst src size : Nat) : Mem × Nat :=
  if size ≤ 2 * ZMM_SZ then
    if size < ZMM_SZ then (load_store_ble_zmm_vec m dst src size, dst)
    else (load_store_le_2zmm_vec m dst src size, dst)
  else if size ≤ 8 * ZMM_SZ then
    let m1 := load_store_le_4zmm_vec m dst src size
    if size ≤ 4 * ZMM_SZ then (m1, dst)
    else (load_store_le_4zmm_vec m1 (dst + 2 * ZMM_SZ) (src + 2 * ZMM_SZ)
      (size - 4 * ZMM_SZ), dst)
  else (memcpy_avx512_large l2 nt m dst src size, dst)

/-- The backward overlap path of `_memcpy_avx512` with `MEMMOVE_AVX512`
(lines 82–102, `src < dst`): first four source vectors saved before the
loop and stored after it; in the both-aligned case the last vector is
saved across the loop over `size & ~63`, otherwise the unaligned backward
loop runs down to `4*ZMM_SZ`. -/
def memmove_avx512_bkwd (m : Mem) (dst src size : Nat) : Mem :=
  let r4 := loadVec m (src + 3 * ZMM_SZ)
  let r5 := loadVec m (src + 2 * ZMM_SZ)
  let r6 := loadVec m (src + ZMM_SZ)
  let r7 := loadVec m src
  let m1 :=
    if dst % ZMM_SZ = 0 ∧ src % ZMM_SZ = 0 then
      let r8 := loadVec m (src + size - ZMM_SZ)
      let r := vec_loop_bkwd (4 * ZMM_SZ) m dst src (size - size % ZMM_SZ)
        (3 * ZMM_SZ)
      storeVec r.1 (dst + size - ZMM_SZ) r8 ZMM_SZ
    else
      (vec_loop_bkwd (4 * ZMM_SZ) m dst src size (4 * ZMM_SZ)).1
  storeVec (storeVec (storeVec (storeVec m1
    (dst + 3 * ZMM_SZ) r4 ZMM_SZ)
    (dst + 2 * ZMM_SZ) r5 ZMM_SZ)
    (dst + ZMM_SZ) r6 ZMM_SZ)
    dst r7 ZMM_SZ

/-- The forward overlap path of `_memcpy_avx512` with `MEMMOVE_AVX512`
(lines 103–118, `src ≥ dst`): last four source vectors saved before the
forward loop over `[0, size - 4*ZMM_SZ)` and stored after it. -/
def memmove_avx512_fwd (m : Mem) (dst src size : Nat) : Mem :=
  let r4 := loadVec m (src + size - 4 * ZMM_SZ)
  let r5 := loadVec m (src + size - 3 * ZMM_SZ)
  let r6 := loadVec m (src + size - 2 * ZMM_SZ)
  let r7 := loadVec m (src + size - ZMM_SZ)
  let r := vec_loop_fwd (4 * ZMM_SZ) m dst src (size - 4 * ZMM_SZ) 0
  storeVec (storeVec (storeVec (storeVec r.1
    (dst + size - 4 * ZMM_SZ) r4 ZMM_SZ)
    (dst + size - 3 * ZMM_SZ) r5 ZMM_SZ)
    (dst + size - 2 * ZMM_SZ) r6 ZMM_SZ)
    (dst + size - ZMM_SZ) r7 ZMM_SZ

/-- `_memcpy_avx512` compiled with `MEMMOVE_AVX512` (i.e. the memmove
kernel, lines 37–175): head/tail covers up to 512B, then the overlap test
`!(((dst + size) < src) || ((src + size) < dst))` selects the
direction-aware overlap paths, and disjoint buffers take the shared
large-copy path. -/
def memmove_avx512 (l2 nt : Nat) (m : Mem) (dst src size : Nat) : Mem × Nat :=
  if size ≤ 2 * ZMM_SZ then
    if size < ZMM_SZ then (load_store_ble_zmm_vec m dst src size, dst)
    else (load_store_le_2zmm_vec m dst src size, dst)
  else if size ≤ 8 * ZMM_SZ then
    if size ≤ 4 * ZMM_SZ then (load_store_le_4zmm_vec m dst src size, dst)
    else (load_store_le_8zmm_vec m dst src size, dst)
  else if ¬(dst + size < src ∨ src + size < dst) then
    if src < dst then (memmove_avx512_bkwd m dst src size, dst)
    else (memmove_avx512_fwd m dst src size, dst)
  else (memcpy_avx512_large l2 nt m dst src size, dst)

/-! ### Correctness of the copy helpers -/

theorem load_store_le_2zmm_vec_spec (m : Mem) (dst src size : Nat)
    (h1 : ZMM_SZ ≤ size) (h2 : size ≤ 2 * ZMM_SZ) :
    load_store_le_2zmm_vec m dst src size = copy_ref m dst src size := by
  have hZ : ZMM_SZ = 64 := rfl
  funext x
  simp only [load_store_le_2zmm_vec, storeVec, loadVec, copy_ref]
  split_ifs <;> first | rfl | (congr 1; omega) | omega

set_option maxRecDepth 8000 in
theorem load_store_le_4zmm_vec_spec (m : Mem) (dst src size : Nat)
    (h1 : 2 * ZMM_SZ ≤ size) (h2 : size ≤ 4 * ZMM_SZ) :
    load_store_le_4zmm_vec m dst src size = copy_ref m dst src size := by
  have hZ : ZMM_SZ = 64 := rfl
  funext x
  simp only [load_store_le_4zmm_vec, storeVec, loadVec, copy_ref]
  split_ifs <;> first | rfl | (congr 1; omega) | omega

set_option maxRecDepth 16000 in
theorem load_store_le_8zmm_vec_spec (m : Mem) (dst src size : Nat)
    (h1 : 4 * ZMM_SZ ≤ size) (h2 : size ≤ 8 * ZMM_SZ) :
    load_store_le_8zmm_vec m dst src size = copy_ref m dst src size := by
  have hZ : ZMM_SZ = 64 := rfl
  funext x
  simp only [load_store_le_8zmm_vec, storeVec, loadVec, copy_ref]
  split_ifs <;> first | rfl | (congr 1; omega) | omega

set_option maxRecDepth 16000 in
set_option maxHeartbeats 2000000 in
theorem memcpy_le4_pair_spec (m : Mem) (dst src size : Nat)
    (h1 : 4 * ZMM_SZ < size) (h2 : size ≤ 8 * ZMM_SZ)
    (hdisj : dst + size ≤ src ∨ src + size ≤ dst) :
    load_store_le_4zmm_vec (load_store_le_4zmm_vec m dst src size)
      (dst + 2 * ZMM_SZ) (src + 2 * ZMM_SZ) (size - 4 * ZMM_SZ) =
    copy_ref m dst src size := by
  have hZ : ZMM_SZ = 64 := rfl
  funext x
  simp only [load_store_le_4zmm_vec, storeVec, loadVec, copy_ref]
  split_ifs <;> first | rfl | (congr 1; omega) | omega

theorem vec_loop_fwd_spec (w : Nat) (m0 : Mem) (dst src size limit : Nat)
    (hw : 0 < w) (hsep : dst ≤ src ∨ src + size ≤ dst) (hend : limit + w ≤ size) :
    ∀ k offset m, limit - offset ≤ k →
      (∀ y, offset ≤ y → y < size → m (src + y) = m0 (src + y)) →
      offset ≤ (vec_loop_fwd w m dst src limit offset).2 ∧
      (offset < limit → limit ≤ (vec_loop_fwd w m dst src limit offset).2 ∧
        (vec_loop_fwd w m dst src limit offset).2 < limit + w) ∧
      (limit ≤ offset → (vec_loop_fwd w m dst src limit offset).2 = offset) ∧
      ∀ x, (vec_loop_fwd w m dst src limit offset).1 x =
        if dst + offset ≤ x ∧ x < dst + (vec_loop_fwd w m dst src limit offset).2
        then m0 (src + (x - dst)) else m x := by
  intro k
  induction k with
  | zero =>
    intro offset m hk hread
    have hlim : ¬(offset < limit ∧ 0 < w) := by omega
    rw [vec_loop_fwd, dif_neg hlim]
    refine ⟨le_rfl, fun h => absurd h (by omega), fun _ => rfl, fun x => ?_⟩
    rw [if_neg (by omega)]
  | succ k ih =>
    intro offset m hk hread
    rw [vec_loop_fwd]
    by_cases hg : offset < limit ∧ 0 < w
    · rw [dif_pos hg]
      have hread1 : ∀ y, offset + w ≤ y → y < size →
          blockCopy m (dst + offset) (src + offset) w (src + y) = m0 (src + y) := by
        intro y hy1 hy2
        rw [blockCopy]
        rw [if_neg (by rcases hsep with h | h <;> omega)]
        exact hread y (by omega) hy2
      obtain ⟨ih1, ih2, ih3, ih4⟩ :=
        ih (offset + w) (blockCopy m (dst + offset) (src + offset) w)
          (by omega) hread1
      refine ⟨by omega, fun _ => ?_, fun hlim => absurd hlim (by omega), fun x => ?_⟩
      · rcases Nat.lt_or_ge (offset + w) limit with hc | hc
        · exact ⟨by omega, (ih2 hc).2⟩
        · have := ih3 hc
          omega
      · rw [ih4 x]
        by_cases hx1 : dst + (offset + w) ≤ x ∧
            x < dst + (vec_loop_fwd w (blockCopy m (dst + offset) (src + offset) w)
              dst src limit (offset + w)).2
        · rw [if_pos hx1, if_pos (by omega)]
        · rw [if_neg hx1, blockCopy]
          by_cases hx2 : dst + offset ≤ x ∧ x < dst + offset + w
          · rw [if_pos hx2, if_pos (by omega)]
            rw [show src + offset + (x - (dst + offset)) = src + (x - dst) by omega]
            exact hread (x - dst) (by omega) (by omega)
          · rw [if_neg hx2, if_neg (by omega)]
    · rw [dif_neg hg]
      have hlim : limit ≤ offset := by omega
      refine ⟨le_rfl, fun h => absurd h (by omega), fun _ => rfl, fun x => ?_⟩
      rw [if_neg (by omega)]

set_option maxRecDepth 16000 in
set_option maxHeartbeats 1000000 in
theorem memcpy_avx512_tail_spec (m0 m : Mem) (dst src size covered : Nat)
    (hsz : 8 * ZMM_SZ ≤ size)
    (hcov1 : covered < size) (hcov2 : size ≤ covered + 8 * ZMM_SZ)
    (hcov3 : 8 * ZMM_SZ ≤ covered)
    (hdisj : dst + size ≤ src ∨ src + size ≤ dst)
    (hmem : ∀ x, m x =
      if dst ≤ x ∧ x < dst + covered then m0 (src + (x - dst)) else m0 x) :
    memcpy_avx512_tail m dst src size (size - covered) = copy_ref m0 dst src size := by
  have hZ : ZMM_SZ = 64 := rfl
  have hrem1 : 1 ≤ size - covered := by omega
  have hrem2 : size - covered ≤ 8 * ZMM_SZ := by omega
  rw [memcpy_avx512_tail]
  set rem := size - covered with hrd
  set rv := rem / ZMM_SZ % 16 + if rem % ZMM_SZ ≠ 0 then 1 else 0 with hrv
  have hrvb : (4 < rv ↔ 4 * ZMM_SZ < rem) ∧ (2 < rv ↔ 2 * ZMM_SZ < rem) ∧
      (rv = 2 ↔ (ZMM_SZ < rem ∧ rem ≤ 2 * ZMM_SZ)) := by
    rw [hrv, hZ]
    rcases eq_or_ne (rem % 64) 0 with h | h <;> simp [h] <;> omega
  by_cases hb1 : 4 < rv
  · rw [if_pos hb1]
    have hr : 4 * ZMM_SZ < rem := hrvb.1.mp hb1
    rw [load_store_le_8zmm_vec_spec _ _ _ _ (by omega) (by omega)]
    funext x
    simp only [copy_ref]
    simp only [hmem]
    split_ifs <;> first | rfl | (congr 1; omega) | omega
  · rw [if_neg hb1]
    have hr1 : rem ≤ 4 * ZMM_SZ := by
      have := hrvb.1
      omega
    by_cases hb2 : 2 < rv
    · rw [if_pos hb2]
      have hr : 2 * ZMM_SZ < rem := hrvb.2.1.mp hb2
      rw [load_store_le_4zmm_vec_spec _ _ _ _ (by omega) (by omega)]
      funext x
      simp only [copy_ref]
      simp only [hmem]
      split_ifs <;> first | rfl | (congr 1; omega) | omega
    · rw [if_neg hb2]
      have hr2 : rem ≤ 2 * ZMM_SZ := by
        have := hrvb.2.1
        omega
      by_cases hb3 : rv = 2
      · rw [if_pos hb3]
        have hr : ZMM_SZ < rem ∧ rem ≤ 2 * ZMM_SZ := hrvb.2.2.mp hb3
        rw [load_store_le_2zmm_vec_spec _ _ _ _ (by omega) (by omega)]
        funext x
        simp only [copy_ref]
        simp only [hmem]
        split_ifs <;> first | rfl | (congr 1; omega) | omega
      · rw [if_neg hb3]
        have hr : rem ≤ ZMM_SZ := by
          have := hrvb.2.2
          omega
        rw [load_store_zmm_vec]
        funext x
        simp only [blockCopy, copy_ref]
        simp only [hmem]
        split_ifs <;> first | rfl | (congr 1; omega) | omega

theorem memcpy_large_loop_tail (w : Nat) (m m1 : Mem) (dst src size offset0 : Nat)
    (hw : 0 < w) (hwle : w ≤ 8 * ZMM_SZ)
    (hsz : 16 * ZMM_SZ < size)
    (hdisj : dst + size ≤ src ∨ src + size ≤ dst)
    (hm1 : ∀ x, m1 x =
      if dst ≤ x ∧ x < dst + 8 * ZMM_SZ then m (src + (x - dst)) else m x)
    (hoff : 7 * ZMM_SZ ≤ offset0 ∧ offset0 ≤ 8 * ZMM_SZ) :
    memcpy_avx512_tail
      (vec_loop_fwd w m1 dst src (size - 8 * ZMM_SZ) offset0).1 dst src size
      (size - (vec_loop_fwd w m1 dst src (size - 8 * ZMM_SZ) offset0).2) =
    copy_ref m dst src size := by
  have hZ : ZMM_SZ = 64 := rfl
  have hsep : dst ≤ src ∨ src + size ≤ dst := by
    rcases hdisj with h | h
    · left; omega
    · right; omega
  have hread : ∀ y, offset0 ≤ y → y < size → m1 (src + y) = m (src + y) := by
    intro y hy1 hy2
    rw [hm1]
    rw [if_neg (by rcases hdisj with h | h <;> omega)]
  obtain ⟨hL1, hL2, hL3, hL4⟩ :=
    vec_loop_fwd_spec w m dst src size (size - 8 * ZMM_SZ) hw hsep (by omega)
      (size - 8 * ZMM_SZ - offset0) offset0 m1 le_rfl hread
  set r := vec_loop_fwd w m1 dst src (size - 8 * ZMM_SZ) offset0 with hr
  have hoff_lt : offset0 < size - 8 * ZMM_SZ := by omega
  obtain ⟨hr1, hr2⟩ := hL2 hoff_lt
  apply memcpy_avx512_tail_spec m r.1 dst src size r.2 (by omega) (by omega)
    (by omega) (by omega) hdisj
  intro x
  rw [hL4 x]
  by_cases hx1 : dst + offset0 ≤ x ∧ x < dst + r.2
  · rw [if_pos hx1, if_pos (by omega)]
  · rw [if_neg hx1, hm1 x]
    by_cases hx2 : dst ≤ x ∧ x < dst + 8 * ZMM_SZ
    · rw [if_pos hx2, if_pos (by omega)]
    · rw [if_neg hx2, if_neg (by omega)]

/-- **C6.** For every size and every combination of source/destination
alignment (the base addresses are universally quantified, and the
threshold parameters `l2`, `nt` are arbitrary), `_memcpy_avx512` on
non-overlapping regions produces exactly the scratch-buffer reference
copy: `dst[0..n)` becomes byte-for-byte equal to `src[0..n)`, every byte
outside `[dst, dst+n)` — in particular any guard bytes around the
destination — is unchanged, and the returned pointer is the original
`dst`. -/
theorem memcpy_avx512_correct (l2 nt : Nat) (m : Mem) (dst src size : Nat)
    (hdisj : dst + size ≤ src ∨ src + size ≤ dst) :
    memcpy_avx512 l2 nt m dst src size = (copy_ref m dst src size, dst) := by
  have hZ : ZMM_SZ = 64 := rfl
  rw [memcpy_avx512]
  by_cases h1 : size ≤ 2 * ZMM_SZ
  · rw [if_pos h1]
    by_cases h2 : size < ZMM_SZ
    · rw [if_pos h2]
      rfl
    · rw [if_neg h2, load_store_le_2zmm_vec_spec _ _ _ _ (by omega) (by omega)]
  · rw [if_neg h1]
    by_cases h2 : size ≤ 8 * ZMM_SZ
    · rw [if_pos h2]
      by_cases h3 : size ≤ 4 * ZMM_SZ
      · rw [if_pos h3, load_store_le_4zmm_vec_spec _ _ _ _ (by omega) (by omega)]
      · rw [if_neg h3, memcpy_le4_pair_spec _ _ _ _ (by omega) (by omega) hdisj]
    · rw [if_neg h2]
      rw [memcpy_avx512_large]
      have hm1 : ∀ x, load_store_le_8zmm_vec m dst src (8 * ZMM_SZ) x =
          if dst ≤ x ∧ x < dst + 8 * ZMM_SZ then m (src + (x - dst)) else m x := by
        intro x
        rw [load_store_le_8zmm_vec_spec _ _ _ _ (by omega) le_rfl]
        rfl
      by_cases h3 : 16 * ZMM_SZ < size
      · rw [if_pos h3]
        simp only []
        by_cases h4 : src % ZMM_SZ = dst % ZMM_SZ
        · rw [if_pos h4]
          by_cases h5 : size < l2
          · rw [if_pos h5]
            rw [memcpy_large_loop_tail (4 * ZMM_SZ) m _ dst src size _ (by omega)
              (by omega) h3 hdisj hm1
              (by have hml : dst % ZMM_SZ < ZMM_SZ := Nat.mod_lt dst (by omega)
                  omega)]
          · rw [if_neg h5]
            by_cases h6 : size < nt
            · rw [if_pos h6]
              rw [memcpy_large_loop_tail (4 * ZMM_SZ) m _ dst src size _ (by omega)
                (by omega) h3 hdisj hm1
              (by have hml : dst % ZMM_SZ < ZMM_SZ := Nat.mod_lt dst (by omega)
                  omega)]
            · rw [if_neg h6]
              rw [memcpy_large_loop_tail (8 * ZMM_SZ) m _ dst src size _ (by omega)
                (by omega) h3 hdisj hm1
              (by have hml : dst % ZMM_SZ < ZMM_SZ := Nat.mod_lt dst (by omega)
                  omega)]
        · rw [if_neg h4]
          by_cases h6 : size < nt
          · rw [if_pos h6]
            rw [memcpy_large_loop_tail (4 * ZMM_SZ) m _ dst src size _ (by omega)
              (by omega) h3 hdisj hm1
              (by have hml : dst % ZMM_SZ < ZMM_SZ := Nat.mod_lt dst (by omega)
                  omega)]
          · rw [if_neg h6]
            rw [memcpy_large_loop_tail (4 * ZMM_SZ) m _ dst src size _ (by omega)
              (by omega) h3 hdisj hm1
              (by have hml : dst % ZMM_SZ < ZMM_SZ := Nat.mod_lt dst (by omega)
                  omega)]
      · rw [if_neg h3]
        rw [memcpy_avx512_tail_spec m _ dst src size (8 * ZMM_SZ) (by omega)
          (by omega) (by omega) (by omega) hdisj hm1]

/-- Witness for C6: the spec's concrete scenario — a 130-byte copy with
source alignment 5 and destination alignment 19 (8+ guard bytes on each
side of the destination region are untouched because everything outside
`[dst, dst+130)` is untouched). -/
theorem memcpy_avx512_correct_witness :
    memcpy_avx512 32768 1000000 (fun i => i % 256) 1043 5 130 =
      (copy_ref (fun i => i % 256) 1043 5 130, 1043) :=
  memcpy_avx512_correct 32768 1000000 (fun i => i % 256) 1043 5 130 (by omega)

/-- Invariant-carrying correctness of the backward copy loop: `P` closes
the reachable `sz` values under one step and guarantees a full block fits
whenever the loop iterates (`src ≤ dst` makes every load read data not
yet overwritten). -/
theorem vec_loop_bkwd_spec (w : Nat) (m0 : Mem) (dst src limit : Nat)
    (P : Nat → Prop)
    (hw : 0 < w) (hsep : src ≤ dst)
    (hPstep : ∀ t, P t → limit < t → w ≤ t ∧ P (t - w)) :
    ∀ k sz m, sz ≤ k → P sz →
      (∀ y, y < sz → m (src + y) = m0 (src + y)) →
      (vec_loop_bkwd w m dst src sz limit).2 ≤ sz ∧
      (limit < sz → (vec_loop_bkwd w m dst src sz limit).2 ≤ limit) ∧
      (sz ≤ limit → (vec_loop_bkwd w m dst src sz limit).2 = sz) ∧
      ∀ x, (vec_loop_bkwd w m dst src sz limit).1 x =
        if dst + (vec_loop_bkwd w m dst src sz limit).2 ≤ x ∧ x < dst + sz
        then m0 (src + (x - dst)) else m x := by
  intro k
  induction k with
  | zero =>
    intro sz m hk hP hread
    have hsz : sz = 0 := by omega
    subst hsz
    rw [vec_loop_bkwd, dif_neg (by omega)]
    exact ⟨le_rfl, fun h => absurd h (by omega), fun _ => rfl,
      fun x => by rw [if_neg (by omega)]⟩
  | succ k ih =>
    intro sz m hk hP hread
    rw [vec_loop_bkwd]
    by_cases hg : limit < sz ∧ 0 < w
    · rw [dif_pos hg]
      obtain ⟨hwle, hPnext⟩ := hPstep sz hP hg.1
      have hread1 : ∀ y, y < sz - w →
          blockCopy m (dst + (sz - w)) (src + (sz - w)) w (src + y) = m0 (src + y) := by
        intro y hy
        rw [blockCopy, if_neg (by omega)]
        exact hread y (by omega)
      obtain ⟨ih1, ih2, ih3, ih4⟩ :=
        ih (sz - w) (blockCopy m (dst + (sz - w)) (src + (sz - w)) w)
          (by omega) hPnext hread1
      refine ⟨by omega, fun _ => ?_, fun h => absurd h (by omega), fun x => ?_⟩
      · rcases Nat.lt_or_ge limit (sz - w) with hc | hc
        · exact le_trans (ih2 hc) le_rfl
        · have := ih3 (by omega)
          omega
      · rw [ih4 x]
        by_cases hx1 : dst + (vec_loop_bkwd w
            (blockCopy m (dst + (sz - w)) (src + (sz - w)) w) dst src (sz - w)
            limit).2 ≤ x ∧ x < dst + (sz - w)
        · rw [if_pos hx1, if_pos (by omega)]
        · rw [if_neg hx1, blockCopy]
          by_cases hx2 : dst + (sz - w) ≤ x ∧ x < dst + (sz - w) + w
          · rw [if_pos hx2, if_pos (by omega)]
            rw [show src + (sz - w) + (x - (dst + (sz - w))) = src + (x - dst) by omega]
            exact hread (x - dst) (by omega)
          · rw [if_neg hx2, if_neg (by omega)]
    · rw [dif_neg hg]
      refine ⟨le_rfl, fun h => absurd h (by omega), fun _ => rfl,
        fun x => by rw [if_neg (by omega)]⟩

set_option maxRecDepth 16000 in
set_option maxHeartbeats 1000000 in
theorem memmove_avx512_bkwd_spec (m : Mem) (dst src size : Nat)
    (hsz : 8 * ZMM_SZ < size) (hsep : src ≤ dst) :
    memmove_avx512_bkwd m dst src size = copy_ref m dst src size := by
  have hZ : ZMM_SZ = 64 := rfl
  rw [memmove_avx512_bkwd]
  by_cases hal : dst % ZMM_SZ = 0 ∧ src % ZMM_SZ = 0
  · rw [if_pos hal]
    have hdvd : ZMM_SZ ∣ (size - size % ZMM_SZ) := by
      have := Nat.div_add_mod size ZMM_SZ
      exact ⟨size / ZMM_SZ, by omega⟩
    obtain ⟨hL1, hL2, hL3, hL4⟩ :=
      vec_loop_bkwd_spec (4 * ZMM_SZ) m dst src (3 * ZMM_SZ) (fun t => ZMM_SZ ∣ t)
        (by omega) hsep
        (by
          intro t ht hlt
          obtain ⟨c, hc⟩ := ht
          have hZc : ZMM_SZ = 64 := rfl
          rw [hZc] at hc
          refine ⟨by omega, c - 4, ?_⟩
          rw [hZc]
          omega)
        (size - size % ZMM_SZ) (size - size % ZMM_SZ) m le_rfl hdvd
        (fun y _ => rfl)
    set r := vec_loop_bkwd (4 * ZMM_SZ) m dst src (size - size % ZMM_SZ)
      (3 * ZMM_SZ) with hr
    have hmod : size % ZMM_SZ < ZMM_SZ := Nat.mod_lt size (by omega)
    have hr2 : r.2 ≤ 3 * ZMM_SZ := hL2 (by omega)
    funext x
    simp only [storeVec, loadVec, copy_ref]
    rw [hL4 x]
    split_ifs <;> first | rfl | (congr 1; omega) | omega
  · rw [if_neg hal]
    obtain ⟨hL1, hL2, hL3, hL4⟩ :=
      vec_loop_bkwd_spec (4 * ZMM_SZ) m dst src (4 * ZMM_SZ) (fun _ => True)
        (by omega) hsep
        (by intro t _ hlt; exact ⟨by omega, trivial⟩)
        size size m le_rfl trivial (fun y _ => rfl)
    set r := vec_loop_bkwd (4 * ZMM_SZ) m dst src size (4 * ZMM_SZ) with hr
    have hr2 : r.2 ≤ 4 * ZMM_SZ := hL2 (by omega)
    funext x
    simp only [storeVec, loadVec, copy_ref]
    rw [hL4 x]
    split_ifs <;> first | rfl | (congr 1; omega) | omega

set_option maxRecDepth 16000 in
set_option maxHeartbeats 1000000 in
theorem memmove_avx512_fwd_spec (m : Mem) (dst src size : Nat)
    (hsz : 8 * ZMM_SZ < size) (hsep : dst ≤ src) :
    memmove_avx512_fwd m dst src size = copy_ref m dst src size := by
  have hZ : ZMM_SZ = 64 := rfl
  rw [memmove_avx512_fwd]
  obtain ⟨hL1, hL2, hL3, hL4⟩ :=
    vec_loop_fwd_spec (4 * ZMM_SZ) m dst src size (size - 4 * ZMM_SZ)
      (by omega) (Or.inl hsep) (by omega)
      (size - 4 * ZMM_SZ) 0 m (by omega) (fun y _ _ => rfl)
  set r := vec_loop_fwd (4 * ZMM_SZ) m dst src (size - 4 * ZMM_SZ) 0 with hr
  obtain ⟨hr1, hr2⟩ := hL2 (by omega)
  funext x
  simp only [storeVec, loadVec, copy_ref]
  rw [hL4 x]
  split_ifs <;> first | rfl | (congr 1; omega) | omega

/-- **C5.** For every pair of regions satisfying the kernel's own overlap
test (in particular whenever `dst` and `src` overlap within one buffer,
in either direction), the memmove build of `_memcpy_avx512` produces
exactly the contents a reference implementation that copies the `n`
source bytes through a temporary scratch buffer would produce, and
returns `dst`. -/
theorem memmove_avx512_correct (l2 nt : Nat) (m : Mem) (dst src size : Nat)
    (hover : ¬(dst + size < src ∨ src + size < dst)) :
    memmove_avx512 l2 nt m dst src size = (copy_ref m dst src size, dst) := by
  have hZ : ZMM_SZ = 64 := rfl
  rw [memmove_avx512]
  by_cases h1 : size ≤ 2 * ZMM_SZ
  · rw [if_pos h1]
    by_cases h2 : size < ZMM_SZ
    · rw [if_pos h2]
      rfl
    · rw [if_neg h2, load_store_le_2zmm_vec_spec _ _ _ _ (by omega) (by omega)]
  · rw [if_neg h1]
    by_cases h2 : size ≤ 8 * ZMM_SZ
    · rw [if_pos h2]
      by_cases h3 : size ≤ 4 * ZMM_SZ
      · rw [if_pos h3, load_store_le_4zmm_vec_spec _ _ _ _ (by omega) (by omega)]
      · rw [if_neg h3, load_store_le_8zmm_vec_spec _ _ _ _ (by omega) (by omega)]
    · rw [if_neg h2, if_pos hover]
      by_cases h4 : src < dst
      · rw [if_pos h4, memmove_avx512_bkwd_spec _ _ _ _ (by omega) (by omega)]
      · rw [if_neg h4, memmove_avx512_fwd_spec _ _ _ _ (by omega) (by omega)]

/-- Witness for C5: a backward-overlap move (`src = 0 < dst = 8`,
600 bytes, overlap 592 bytes). -/
theorem memmove_avx512_correct_witness :
    memmove_avx512 32768 1000000 (fun i => i % 251) 8 0 600 =
      (copy_ref (fun i => i % 251) 8 0 600, 8) :=
  memmove_avx512_correct 32768 1000000 (fun i => i % 251) 8 0 600 (by omega)


/-! ## Bounded and unbounded string copy: correctness (C7)

The reference images below follow the spec's contract wording ("copy then
null-pad remaining destination budget" for the bounded form, "copy through
and including the terminator" for the unbounded form); everything else is
proved about the kernel embeddings above.  `L` is the logical source
length: the offset of the first null byte. -/

/-- Application of an `ite` of byte memories distributes to the bytes. -/
theorem mem_ite_apply {c : Prop} [Decidable c] (f g : Mem) (x : Nat) :
    (if c then f else g) x = if c then f x else g x := by
  split_ifs <;> rfl

/-- Characterization of the 4×ZMM zero-store loop of `_fill_null_avx512`:
it zeroes exactly `[base+offset, base+off)` for an exit offset `off` that
reaches `sizeRed` but overshoots by less than one 4-vector block. -/
theorem fill_null_loop_spec (base sizeRed : Nat) :
    ∀ (k offset : Nat) (d : Mem), sizeRed - offset ≤ k →
    ∃ off, sizeRed ≤ off ∧ (offset < sizeRed → off < sizeRed + 4 * ZMM_SZ) ∧
      (sizeRed ≤ offset → off = offset) ∧ offset ≤ off ∧
      fill_null_loop d base sizeRed offset =
        fun x => if base + offset ≤ x ∧ x < base + off then 0 else d x := by
  have hZ : ZMM_SZ = 64 := rfl
  intro k
  induction k with
  | zero =>
    intro offset d hk
    refine ⟨offset, by omega, fun h => absurd h (by omega), fun _ => rfl, le_rfl, ?_⟩
    rw [fill_null_loop, dif_neg (by omega)]
    funext x
    rw [if_neg (by omega)]
  | succ k ih =>
    intro offset d hk
    by_cases ho : offset < sizeRed
    · obtain ⟨off, h1, h2, h3, h4, heq⟩ :=
        ih (offset + 4 * ZMM_SZ) (setZero d (base + offset) (4 * ZMM_SZ)) (by omega)
      refine ⟨off, h1, ?_, ?_, by omega, ?_⟩
      · intro _
        by_cases hc : offset + 4 * ZMM_SZ < sizeRed
        · exact h2 hc
        · have := h3 (by omega)
          omega
      · intro h
        omega
      · rw [fill_null_loop, dif_pos ho, heq]
        funext x
        simp only [setZero]
        split_ifs <;> first | rfl | (exfalso; omega)
    · refine ⟨offset, by omega, fun h => absurd h ho, fun _ => rfl, le_rfl, ?_⟩
      rw [fill_null_loop, dif_neg ho]
      funext x
      rw [if_neg (by omega)]

set_option maxRecDepth 16000 in
set_option maxHeartbeats 2000000 in
/-- `_fill_null_avx512` writes a null to exactly the `size` destination
bytes starting at `base`, for every size and every pointer alignment
(every store block lies inside `[base, base+size)` and the blocks cover
it). -/
theorem fill_null_avx512_spec (memA : Nat) (d : Mem) (base size : Nat) :
    fill_null_avx512 memA d base size =
      fun x => if base ≤ x ∧ x < base + size then 0 else d x := by
  have hZ : ZMM_SZ = 64 := rfl
  by_cases h1 : size < 2 * ZMM_SZ
  · rw [fill_null_avx512, if_pos h1]
    rfl
  · by_cases h2 : size ≤ 4 * ZMM_SZ
    · rw [fill_null_avx512, if_neg h1, if_pos h2]
      funext x
      simp only [setZero]
      split_ifs <;> first | rfl | (exfalso; omega)
    · by_cases h3 : size ≤ 8 * ZMM_SZ
      · simp only [fill_null_avx512]
        rw [if_neg h1, if_neg h2, if_pos h3]
        funext x
        simp only [setZero]
        split_ifs <;> first | rfl | (exfalso; omega)
      · simp only [fill_null_avx512]
        rw [if_neg h1, if_neg h2, if_neg h3]
        have hmod : memA % ZMM_SZ < ZMM_SZ := Nat.mod_lt memA (by omega)
        obtain ⟨off, ho1, ho2, ho3, ho4, heq⟩ :=
          fill_null_loop_spec base (size - 4 * ZMM_SZ) size (4 * ZMM_SZ - memA % ZMM_SZ)
            (setZero (setZero (setZero (setZero (setZero (setZero (setZero (setZero d
              base ZMM_SZ)
              (base + ZMM_SZ) ZMM_SZ)
              (base + 2 * ZMM_SZ) ZMM_SZ)
              (base + 3 * ZMM_SZ) ZMM_SZ)
              (base + size - 4 * ZMM_SZ) ZMM_SZ)
              (base + size - 3 * ZMM_SZ) ZMM_SZ)
              (base + size - 2 * ZMM_SZ) ZMM_SZ)
              (base + size - ZMM_SZ) ZMM_SZ)
            (by omega)
        rw [heq]
        have hup : off < size - 4 * ZMM_SZ + 4 * ZMM_SZ := ho2 (by omega)
        funext x
        simp only [setZero]
        split_ifs <;> first | rfl | (exfalso; omega)

/-- Reference image of the bounded copy contract: the first
`min(L+1, size)` destination bytes hold the source bytes, the remaining
bytes up to `size` hold nulls, and bytes past `size` are untouched. -/
def strncpy_target (d0 s : Mem) (size L : Nat) : Mem :=
  fun i => if i < size then (if i ≤ L then s i else 0) else d0 i

/-- Reference image of the unbounded copy contract: the `L` string bytes
and the terminator are copied, everything else is untouched. -/
def strcpy_target (d0 s : Mem) (L : Nat) : Mem :=
  fun i => if i ≤ L then s i else d0 i

/-- Scan invariant of `_strncpy_avx512` at block offset `offset`: the scan
position cannot be past the terminator before passing `size`, every
destination byte below both the scan position and `size` already holds the
corresponding source byte, and no byte at or past `size` has been written. -/
def StrncpyInv (d0 s d : Mem) (size L offset : Nat) : Prop :=
  min offset size ≤ L + 1 ∧
  (∀ x, x < offset → x < size → d x = s x) ∧
  (∀ x, size ≤ x → d x = d0 x)

/-- Scan invariant of `_strcpy_avx512`: everything below the scan position
already holds source bytes, and nothing past the terminator has been
written. -/
def StrcpyInv (d0 s d : Mem) (L offset : Nat) : Prop :=
  (∀ x, x < offset → d x = s x) ∧ (∀ x, L < x → d x = d0 x)

/-- When a scan window starts at or before the first null and the null lies
inside the window, the null scan reports exactly the first null. -/
theorem chunkMatch_first_null_in {s : Mem} {L : Nat} (hL0 : s L = 0)
    (hLmin : ∀ i, i < L → s i ≠ 0) {base w : Nat}
    (h1 : base ≤ L) (h2 : L < base + w) :
    chunkMatch s 0 base w = some L := by
  simp only [chunkMatch]
  refine firstWitness_some_intro h1 h2 (by simp [hL0]) ?_
  intro i _ hiL
  simp [hLmin i hiL]

/-- A scan window entirely below the first null reports no null. -/
theorem chunkMatch_first_null_out {s : Mem} {L : Nat}
    (hLmin : ∀ i, i < L → s i ≠ 0) {base w : Nat} (h : base + w ≤ L) :
    chunkMatch s 0 base w = none := by
  simp only [chunkMatch]
  refine firstWitness_eq_none.mpr ?_
  intro i h1 h2
  simp [hLmin i (by omega)]

/-- The bounded-copy invariant is downward closed in the scan position. -/
theorem strncpy_inv_mono {d0 s d : Mem} {size L offset offFrom : Nat}
    (h : StrncpyInv d0 s d size L offFrom) (hle : offset ≤ offFrom) :
    StrncpyInv d0 s d size L offset := by
  obtain ⟨h1, h2, h3⟩ := h
  exact ⟨by omega, fun x hx hxs => h2 x (by omega) hxs, h3⟩

/-- A state satisfying the invariant with the scan past `size` is exactly
the bounded-copy image. -/
theorem strncpy_inv_final {d0 s d : Mem} {size L offset : Nat}
    (hinv : StrncpyInv d0 s d size L offset) (hoff : size ≤ offset) :
    d = strncpy_target d0 s size L := by
  obtain ⟨hi1, hi2, hi3⟩ := hinv
  funext x
  simp only [strncpy_target]
  by_cases hx : x < size
  · rw [if_pos hx, if_pos (show x ≤ L by omega)]
    exact hi2 x (by omega) hx
  · rw [if_neg hx]
    exact hi3 x (by omega)

set_option maxRecDepth 16000 in
set_option maxHeartbeats 1000000 in
/-- A block step that sees the terminator finishes the bounded copy: the
terminator-capped store plus the null fill turn any invariant state into
the bounded-copy image. -/
theorem strncpy_step_found {d0 s d : Mem} {size L offset : Nat} (dstA : Nat)
    (hL0 : s L = 0) (hLmin : ∀ i, i < L → s i ≠ 0)
    (hinv : StrncpyInv d0 s d size L offset)
    (hoffL : offset ≤ L) (hLw : L < offset + ZMM_SZ) (hoffs : offset < size) :
    strncpy_step dstA s d size offset = Sum.inl (strncpy_target d0 s size L) := by
  obtain ⟨hi1, hi2, hi3⟩ := hinv
  have hZ : ZMM_SZ = 64 := rfl
  have hcm := chunkMatch_first_null_in hL0 hLmin hoffL hLw
  simp only [strncpy_step, hcm, fill_null_avx512_spec]
  refine congrArg Sum.inl ?_
  funext x
  simp only [mem_ite_apply, cpy, strncpy_target]
  split_ifs <;>
    first
    | rfl
    | (exact hi2 x (by omega) (by omega))
    | (exact hi3 x (by omega))
    | (exfalso; omega)

/-- A block step over a null-free block stores one full (or `rem`-capped)
vector and re-establishes the invariant one vector later. -/
theorem strncpy_step_clean {d0 s d : Mem} {size L offset : Nat} (dstA : Nat)
    (hLmin : ∀ i, i < L → s i ≠ 0)
    (hinv : StrncpyInv d0 s d size L offset)
    (hLw : offset + ZMM_SZ ≤ L) (hoffs : offset < size) :
    ∃ d1, strncpy_step dstA s d size offset = Sum.inr d1 ∧
      StrncpyInv d0 s d1 size L (offset + ZMM_SZ) := by
  obtain ⟨hi1, hi2, hi3⟩ := hinv
  have hZ : ZMM_SZ = 64 := rfl
  have hcm := chunkMatch_first_null_out hLmin hLw
  refine ⟨if ZMM_SZ ≤ size - offset then cpy s d offset ZMM_SZ
      else cpy s d offset (size - offset),
    by simp only [strncpy_step, hcm], by omega, ?_, ?_⟩
  · intro x hx hxs
    simp only [mem_ite_apply, cpy]
    split_ifs <;> first | rfl | (exact hi2 x (by omega) hxs) | (exfalso; omega)
  · intro x hxs
    simp only [mem_ite_apply, cpy]
    split_ifs <;> first | rfl | (exact hi3 x hxs) | (exfalso; omega)

/-- The counted block loops of `_strncpy_avx512` either finish the copy at
the terminator or hand an invariant state to the next stage. -/
theorem strncpy_vec_loop_spec (dstA : Nat) {d0 s : Mem} {size L : Nat}
    (hL0 : s L = 0) (hLmin : ∀ i, i < L → s i ≠ 0) :
    ∀ (k : Nat) (d : Mem) (offset : Nat),
      StrncpyInv d0 s d size L offset → (offset ≤ L ∨ size ≤ offset) →
      strncpy_vec_loop dstA s size k d offset =
          Sum.inl (strncpy_target d0 s size L) ∨
        ∃ d2 off2, strncpy_vec_loop dstA s size k d offset = Sum.inr (d2, off2) ∧
          StrncpyInv d0 s d2 size L off2 ∧ (off2 ≤ L ∨ size ≤ off2) := by
  have hZ : ZMM_SZ = 64 := rfl
  intro k
  induction k with
  | zero =>
    intro d offset hinv hpos
    exact Or.inr ⟨d, offset, rfl, hinv, hpos⟩
  | succ k ih =>
    intro d offset hinv hpos
    by_cases hso : size ≤ offset
    · refine Or.inr ⟨d, offset, ?_, hinv, hpos⟩
      simp only [strncpy_vec_loop]
      rw [if_pos hso]
    · have hoffL : offset ≤ L := by
        rcases hpos with h | h
        · exact h
        · omega
      by_cases hLw : L < offset + ZMM_SZ
      · left
        simp only [strncpy_vec_loop]
        rw [if_neg hso, strncpy_step_found dstA hL0 hLmin hinv hoffL hLw (by omega)]
      · obtain ⟨d1, hd1, hinv1⟩ :=
          strncpy_step_clean dstA hLmin hinv (by omega) (by omega)
        rcases ih d1 (offset + ZMM_SZ) hinv1 (Or.inl (by omega)) with
          hfin | ⟨d2, off2, heq, hinv2, hpos2⟩
        · left
          simp only [strncpy_vec_loop]
          rw [if_neg hso, hd1]
          exact hfin
        · refine Or.inr ⟨d2, off2, ?_, hinv2, hpos2⟩
          simp only [strncpy_vec_loop]
          rw [if_neg hso, hd1]
          exact heq

/-- The 4×ZMM main loop of `_strncpy_avx512` preserves the invariant and
stops at (or before) the window containing the terminator. -/
theorem strncpy_main4_spec {d0 s : Mem} {size L : Nat}
    (hL0 : s L = 0) (hLmin : ∀ i, i < L → s i ≠ 0) :
    ∀ (k : Nat) (d : Mem) (offset : Nat), size - offset ≤ k →
      StrncpyInv d0 s d size L offset → (offset ≤ L ∨ size ≤ offset) →
      StrncpyInv d0 s (strncpy_main4 s d size offset).1 size L
          (strncpy_main4 s d size offset).2 ∧
        ((strncpy_main4 s d size offset).2 ≤ L ∨
          size ≤ (strncpy_main4 s d size offset).2) := by
  have hZ : ZMM_SZ = 64 := rfl
  intro k
  induction k with
  | zero =>
    intro d offset hk hinv hpos
    rw [strncpy_main4, dif_neg (by omega)]
    exact ⟨hinv, hpos⟩
  | succ k ih =>
    intro d offset hk hinv hpos
    by_cases hg : offset + 4 * ZMM_SZ ≤ size
    · have hoffL : offset ≤ L := by
        rcases hpos with h | h
        · exact h
        · omega
      rw [strncpy_main4, dif_pos hg]
      by_cases hLw : L < offset + 4 * ZMM_SZ
      · simp only [chunkMatch_first_null_in hL0 hLmin hoffL hLw]
        exact ⟨hinv, hpos⟩
      · simp only [chunkMatch_first_null_out hLmin
          (show offset + 4 * ZMM_SZ ≤ L by omega)]
        obtain ⟨hi1, hi2, hi3⟩ := hinv
        refine ih _ (offset + 4 * ZMM_SZ) (by omega) ⟨by omega, ?_, ?_⟩
          (Or.inl (by omega))
        · intro x hx hxs
          simp only [cpy]
          split_ifs <;> first | rfl | (exact hi2 x (by omega) hxs) | (exfalso; omega)
        · intro x hxs
          simp only [cpy]
          split_ifs <;> first | rfl | (exact hi3 x hxs) | (exfalso; omega)
    · rw [strncpy_main4, dif_neg hg]
      exact ⟨hinv, hpos⟩

set_option maxRecDepth 16000 in
set_option maxHeartbeats 1000000 in
/-- The `handle_remaining` loop of `_strncpy_avx512` finishes any invariant
state into the bounded-copy image. -/
theorem strncpy_handle_rem_spec (dstA : Nat) {d0 s : Mem} {size L : Nat}
    (hL0 : s L = 0) (hLmin : ∀ i, i < L → s i ≠ 0) :
    ∀ (k : Nat) (d : Mem) (offset : Nat), size - offset ≤ k →
      StrncpyInv d0 s d size L offset → (offset ≤ L ∨ size ≤ offset) →
      strncpy_handle_rem dstA s d size offset = strncpy_target d0 s size L := by
  have hZ : ZMM_SZ = 64 := rfl
  intro k
  induction k with
  | zero =>
    intro d offset hk hinv hpos
    rw [strncpy_handle_rem, dif_neg (by omega)]
    exact strncpy_inv_final hinv (by omega)
  | succ k ih =>
    intro d offset hk hinv hpos
    by_cases ho : offset < size
    · have hoffL : offset ≤ L := by
        rcases hpos with h | h
        · exact h
        · omega
      rw [strncpy_handle_rem, dif_pos ho]
      by_cases hLw : L < offset + min (size - offset) ZMM_SZ
      · have hcm := chunkMatch_first_null_in hL0 hLmin hoffL hLw
        obtain ⟨hi1, hi2, hi3⟩ := hinv
        simp only [hcm, fill_null_avx512_spec]
        funext x
        simp only [mem_ite_apply, cpy, strncpy_target]
        split_ifs <;>
          first
          | rfl
          | (exact hi2 x (by omega) (by omega))
          | (exact hi3 x (by omega))
          | (exfalso; omega)
      · have hcm := chunkMatch_first_null_out hLmin
          (show offset + min (size - offset) ZMM_SZ ≤ L by omega)
        simp only [hcm]
        obtain ⟨hi1, hi2, hi3⟩ := hinv
        have hinv1 : StrncpyInv d0 s
            (if ZMM_SZ ≤ size - offset then cpy s d offset ZMM_SZ
              else cpy s d offset (min (size - offset) ZMM_SZ)) size L
            (offset + ZMM_SZ) := by
          refine ⟨by omega, ?_, ?_⟩
          · intro x hx hxs
            simp only [mem_ite_apply, cpy]
            split_ifs <;> first | rfl | (exact hi2 x (by omega) hxs) | (exfalso; omega)
          · intro x hxs
            simp only [mem_ite_apply, cpy]
            split_ifs <;> first | rfl | (exact hi3 x hxs) | (exfalso; omega)
        have hpos1 : offset + ZMM_SZ ≤ L ∨ size ≤ offset + ZMM_SZ := by
          by_cases hr : ZMM_SZ ≤ size - offset
          · left
            omega
          · right
            omega
        exact ih _ (offset + ZMM_SZ) (by omega) hinv1 hpos1
    · rw [strncpy_handle_rem, dif_neg ho]
      exact strncpy_inv_final hinv (by omega)

set_option maxRecDepth 8000 in
/-- The head-null epilogue of `_strncpy_avx512` produces the bounded-copy
image directly from the original destination. -/
theorem strncpy_head_found_spec (dstA : Nat) (d0 s : Mem) (size L : Nat) :
    strncpy_head_found dstA s d0 size L = strncpy_target d0 s size L := by
  have hZ : ZMM_SZ = 64 := rfl
  simp only [strncpy_head_found, fill_null_avx512_spec]
  funext x
  simp only [mem_ite_apply, cpy, strncpy_target]
  split_ifs <;> first | rfl | (exfalso; omega)

/-- The body of `_strncpy_avx512` (after the page-proximity head) produces
the bounded-copy image for every source, destination and size. -/
theorem strncpy_avx512_body_spec (dstA srcA : Nat) {d0 s : Mem} {size L : Nat}
    (hL0 : s L = 0) (hLmin : ∀ i, i < L → s i ≠ 0) :
    strncpy_avx512_body dstA srcA d0 s size = strncpy_target d0 s size L := by
  have hZ : ZMM_SZ = 64 := rfl
  have hmod : srcA % ZMM_SZ < ZMM_SZ := Nat.mod_lt srcA (by omega)
  by_cases hL64 : L < ZMM_SZ
  · simp only [strncpy_avx512_body, chunkMatch_first_null_in hL0 hLmin
      (Nat.zero_le L) (show L < 0 + ZMM_SZ by omega)]
    exact strncpy_head_found_spec dstA d0 s size L
  · have hcm := chunkMatch_first_null_out hLmin (show 0 + ZMM_SZ ≤ L by omega)
    simp only [strncpy_avx512_body, hcm]
    have hinv1 : StrncpyInv d0 s
        (if ZMM_SZ ≤ size then cpy s d0 0 ZMM_SZ else cpy s d0 0 size) size L
        (ZMM_SZ - srcA % ZMM_SZ) := by
      refine ⟨by omega, ?_, ?_⟩
      · intro x hx hxs
        simp only [mem_ite_apply, cpy]
        split_ifs <;> first | rfl | (exfalso; omega)
      · intro x hxs
        simp only [mem_ite_apply, cpy]
        split_ifs <;> first | rfl | (exfalso; omega)
    rcases strncpy_vec_loop_spec dstA hL0 hLmin 3 _ _ hinv1 (Or.inl (by omega)) with
      hfin | ⟨d2, off2, heq2, hinv2, hpos2⟩
    · simp only [hfin]
    · simp only [heq2]
      rcases strncpy_vec_loop_spec dstA hL0 hLmin
          (4 - (srcA + off2) % (4 * ZMM_SZ) / ZMM_SZ) _ _ hinv2 hpos2 with
        hfin | ⟨d3, off3, heq3, hinv3, hpos3⟩
      · simp only [hfin]
      · simp only [heq3]
        have hm4 := strncpy_main4_spec hL0 hLmin (size + 1) d3 off3 (by omega)
          hinv3 hpos3
        by_cases hr : (strncpy_main4 s d3 size off3).2 < size
        · rw [if_pos hr]
          exact strncpy_handle_rem_spec dstA hL0 hLmin (size + 1) _ _ (by omega)
            hm4.1 hm4.2
        · rw [if_neg hr]
          exact strncpy_inv_final hm4.1 (by omega)

/-- `_strncpy_avx512(dst, src, size)` with a positive destination budget:
the destination image is the bounded-copy reference image and the returned
pointer is `dst`, for every alignment and every page position of the
source. -/
theorem strncpy_avx512_full_spec (dstA srcA : Nat) {d0 s : Mem} {size L : Nat}
    (hL0 : s L = 0) (hLmin : ∀ i, i < L → s i ≠ 0) (hsz : 0 < size) :
    strncpy_avx512 dstA srcA d0 s size = (strncpy_target d0 s size L, dstA) := by
  have hZ : ZMM_SZ = 64 := rfl
  have hmod : srcA % ZMM_SZ < ZMM_SZ := Nat.mod_lt srcA (by omega)
  rw [strncpy_avx512, if_neg (by omega)]
  by_cases hpage : PAGE_SZ - ZMM_SZ < srcA % PAGE_SZ
  · rw [if_pos hpage]
    by_cases hLw : L < ZMM_SZ - srcA % ZMM_SZ
    · simp only [chunkMatch_first_null_in hL0 hLmin (Nat.zero_le L)
        (show L < 0 + (ZMM_SZ - srcA % ZMM_SZ) by omega)]
      rw [strncpy_head_found_spec dstA d0 s size L]
    · simp only [chunkMatch_first_null_out hLmin
        (show 0 + (ZMM_SZ - srcA % ZMM_SZ) ≤ L by omega)]
      rw [strncpy_avx512_body_spec dstA srcA hL0 hLmin]
  · rw [if_neg hpage, strncpy_avx512_body_spec dstA srcA hL0 hLmin]

/-- The unbounded-copy invariant is downward closed in the scan position. -/
theorem strcpy_inv_mono {d0 s d : Mem} {L offset offFrom : Nat}
    (h : StrcpyInv d0 s d L offFrom) (hle : offset ≤ offFrom) :
    StrcpyInv d0 s d L offset :=
  ⟨fun x hx => h.1 x (by omega), h.2⟩

/-- Transport of the unbounded-copy invariant along an equality of scan
positions. -/
theorem StrcpyInv.reindex {d0 s d : Mem} {L o1 o2 : Nat}
    (h : StrcpyInv d0 s d L o1) (he : o1 = o2) : StrcpyInv d0 s d L o2 :=
  he ▸ h

/-- A full-vector store over a null-free block preserves the unbounded-copy
invariant. -/
theorem StrcpyInv.cpy_step {d0 s d : Mem} {L offset w : Nat}
    (h : StrcpyInv d0 s d L offset) (hLw : offset + w ≤ L) :
    StrcpyInv d0 s (cpy s d offset w) L (offset + w) := by
  obtain ⟨h2, h3⟩ := h
  refine ⟨?_, ?_⟩
  · intro x hx
    simp only [cpy]
    split_ifs <;> first | rfl | (exact h2 x (by omega)) | (exfalso; omega)
  · intro x hx
    simp only [cpy]
    split_ifs <;> first | (exfalso; omega) | (exact h3 x hx)

/-- A full prefix store through the terminator is exactly the
unbounded-copy image. -/
theorem strcpy_prefix_full (d0 s : Mem) (L : Nat) :
    cpy s d0 0 (L + 1) = strcpy_target d0 s L := by
  funext x
  simp only [cpy, strcpy_target]
  split_ifs <;> first | rfl | (exfalso; omega)

/-- The back-anchored tail store ending at the terminator finishes the
unbounded copy from any invariant state whose scan is inside the last
vector. -/
theorem strcpy_tail_final {d0 s d : Mem} {L offset : Nat}
    (hinv : StrcpyInv d0 s d L offset)
    (hlow : L + 1 ≤ offset + ZMM_SZ) (hup : ZMM_SZ ≤ L + 1) :
    strcpy_copy_tail s d L = strcpy_target d0 s L := by
  obtain ⟨h2, h3⟩ := hinv
  have hZ : ZMM_SZ = 64 := rfl
  funext x
  simp only [strcpy_copy_tail, cpy, strcpy_target]
  split_ifs <;>
    first
    | rfl
    | (exact h2 x (by omega))
    | (exact h3 x (by omega))
    | (exfalso; omega)

/-- A do-loop step of `_strcpy_avx512` that sees the terminator finishes
the copy with the back-anchored tail store. -/
theorem strcpy_step_tail_found {d0 s d : Mem} {L offset : Nat}
    (hL0 : s L = 0) (hLmin : ∀ i, i < L → s i ≠ 0)
    (hinv : StrcpyInv d0 s d L offset)
    (hoffL : offset ≤ L) (hLw : L < offset + ZMM_SZ) (hZL : ZMM_SZ ≤ L + 1) :
    strcpy_step_tail s d offset = Sum.inl (strcpy_target d0 s L) := by
  simp only [strcpy_step_tail, chunkMatch_first_null_in hL0 hLmin hoffL hLw]
  exact congrArg Sum.inl (strcpy_tail_final hinv (by omega) hZL)

/-- A do-loop step over a null-free block stores one full vector. -/
theorem strcpy_step_tail_clean {s d : Mem} {L offset : Nat}
    (hLmin : ∀ i, i < L → s i ≠ 0) (hLw : offset + ZMM_SZ ≤ L) :
    strcpy_step_tail s d offset = Sum.inr (cpy s d offset ZMM_SZ) := by
  simp only [strcpy_step_tail, chunkMatch_first_null_out hLmin hLw]

/-- A page-bounded loop step of `_strcpy_avx512` that sees the terminator
finishes the copy with the masked store of `index+1` bytes. -/
theorem strcpy_step_mask_found {d0 s d : Mem} {L offset : Nat}
    (hL0 : s L = 0) (hLmin : ∀ i, i < L → s i ≠ 0)
    (hinv : StrcpyInv d0 s d L offset)
    (hoffL : offset ≤ L) (hLw : L < offset + ZMM_SZ) :
    strcpy_step_mask s d offset = Sum.inl (strcpy_target d0 s L) := by
  obtain ⟨h2, h3⟩ := hinv
  simp only [strcpy_step_mask, chunkMatch_first_null_in hL0 hLmin hoffL hLw]
  refine congrArg Sum.inl ?_
  funext x
  simp only [cpy, strcpy_target]
  split_ifs <;>
    first
    | rfl
    | (exact h2 x (by omega))
    | (exact h3 x (by omega))
    | (exfalso; omega)

/-- A page-bounded loop step over a null-free block stores one full
vector. -/
theorem strcpy_step_mask_clean {s d : Mem} {L offset : Nat}
    (hLmin : ∀ i, i < L → s i ≠ 0) (hLw : offset + ZMM_SZ ≤ L) :
    strcpy_step_mask s d offset = Sum.inr (cpy s d offset ZMM_SZ) := by
  simp only [strcpy_step_mask, chunkMatch_first_null_out hLmin hLw]

/-- The counted loops of `_strcpy_avx512` (over either step) finish the
copy at the terminator or hand an invariant state onward. -/
theorem strcpy_vec_loop_spec {d0 s : Mem} {L : Nat}
    (step : Mem → Nat → Sum Mem Mem)
    (hfound : ∀ d offset, StrcpyInv d0 s d L offset → offset ≤ L →
      L < offset + ZMM_SZ → step d offset = Sum.inl (strcpy_target d0 s L))
    (hclean : ∀ d offset, offset + ZMM_SZ ≤ L →
      step d offset = Sum.inr (cpy s d offset ZMM_SZ)) :
    ∀ (k : Nat) (d : Mem) (offset : Nat), StrcpyInv d0 s d L offset → offset ≤ L →
      strcpy_vec_loop step k d offset = Sum.inl (strcpy_target d0 s L) ∨
      ∃ d2 off2, strcpy_vec_loop step k d offset = Sum.inr (d2, off2) ∧
        StrcpyInv d0 s d2 L off2 ∧ off2 ≤ L ∧ offset ≤ off2 := by
  intro k
  induction k with
  | zero =>
    intro d offset hinv hoffL
    exact Or.inr ⟨d, offset, rfl, hinv, hoffL, le_rfl⟩
  | succ k ih =>
    intro d offset hinv hoffL
    by_cases hLw : L < offset + ZMM_SZ
    · left
      simp only [strcpy_vec_loop, hfound d offset hinv hoffL hLw]
    · have hstep := hclean d offset (by omega)
      rcases ih (cpy s d offset ZMM_SZ) (offset + ZMM_SZ)
          (StrcpyInv.cpy_step hinv (show offset + ZMM_SZ ≤ L by omega)) (by omega)
        with hfin | ⟨d2, off2, heq, h1, h2, h3⟩
      · left
        simp only [strcpy_vec_loop, hstep]
        exact hfin
      · refine Or.inr ⟨d2, off2, ?_, h1, h2, by omega⟩
        simp only [strcpy_vec_loop, hstep]
        exact heq

/-- The main 4×ZMM loop of `_strcpy_avx512` finishes the unbounded copy
from any invariant state, given fuel past the terminator. -/
theorem strcpy_loop4_spec {d0 s : Mem} {L : Nat}
    (hL0 : s L = 0) (hLmin : ∀ i, i < L → s i ≠ 0) (hZL : ZMM_SZ ≤ L) :
    ∀ (fuel : Nat) (d : Mem) (offset : Nat), StrcpyInv d0 s d L offset →
      offset ≤ L → L < offset + fuel →
      strcpy_avx512_loop4 s fuel d offset = some (strcpy_target d0 s L) := by
  have hZ : ZMM_SZ = 64 := rfl
  intro fuel
  induction fuel with
  | zero =>
    intro d offset hinv hoffL hfuel
    exact absurd hfuel (by omega)
  | succ fuel ih =>
    intro d offset hinv hoffL hfuel
    by_cases hw : L < offset + 4 * ZMM_SZ
    · simp only [strcpy_avx512_loop4, chunkMatch_first_null_in hL0 hLmin hoffL hw]
      by_cases h1 : L < offset + ZMM_SZ
      · simp only [chunkMatch_first_null_in hL0 hLmin hoffL h1]
        exact congrArg some (strcpy_tail_final hinv (by omega) (by omega))
      · simp only [chunkMatch_first_null_out hLmin
          (show offset + ZMM_SZ ≤ L by omega)]
        have hv1 : StrcpyInv d0 s (cpy s d offset ZMM_SZ) L (offset + ZMM_SZ) :=
          StrcpyInv.cpy_step hinv (show offset + ZMM_SZ ≤ L by omega)
        by_cases h2 : L < offset + 2 * ZMM_SZ
        · simp only [chunkMatch_first_null_in hL0 hLmin
            (show offset + ZMM_SZ ≤ L by omega)
            (show L < offset + ZMM_SZ + ZMM_SZ by omega)]
          exact congrArg some (strcpy_tail_final hv1 (by omega) (by omega))
        · simp only [chunkMatch_first_null_out hLmin
            (show offset + ZMM_SZ + ZMM_SZ ≤ L by omega)]
          have hv2 : StrcpyInv d0 s
              (cpy s (cpy s d offset ZMM_SZ) (offset + ZMM_SZ) ZMM_SZ) L
              (offset + 2 * ZMM_SZ) :=
            (StrcpyInv.cpy_step hv1
              (show offset + ZMM_SZ + ZMM_SZ ≤ L by omega)).reindex (by omega)
          by_cases h3 : L < offset + 3 * ZMM_SZ
          · simp only [chunkMatch_first_null_in hL0 hLmin
              (show offset + 2 * ZMM_SZ ≤ L by omega)
              (show L < offset + 2 * ZMM_SZ + ZMM_SZ by omega)]
            exact congrArg some (strcpy_tail_final hv2 (by omega) (by omega))
          · simp only [chunkMatch_first_null_out hLmin
              (show offset + 2 * ZMM_SZ + ZMM_SZ ≤ L by omega)]
            have hv3 : StrcpyInv d0 s
                (cpy s (cpy s (cpy s d offset ZMM_SZ) (offset + ZMM_SZ) ZMM_SZ)
                  (offset + 2 * ZMM_SZ) ZMM_SZ) L (offset + 3 * ZMM_SZ) :=
              (StrcpyInv.cpy_step hv2
                (show offset + 2 * ZMM_SZ + ZMM_SZ ≤ L by omega)).reindex (by omega)
            simp only [chunkMatch_first_null_in hL0 hLmin
              (show offset + 3 * ZMM_SZ ≤ L by omega)
              (show L < offset + 3 * ZMM_SZ + ZMM_SZ by omega)]
            exact congrArg some (strcpy_tail_final hv3 (by omega) (by omega))
    · simp only [strcpy_avx512_loop4, chunkMatch_first_null_out hLmin
        (show offset + 4 * ZMM_SZ ≤ L by omega)]
      exact ih (cpy s d offset (4 * ZMM_SZ)) (offset + 4 * ZMM_SZ)
        (StrcpyInv.cpy_step hinv (show offset + 4 * ZMM_SZ ≤ L by omega))
        (by omega) (by omega)

/-- The body of `_strcpy_avx512` (after the page-proximity head) produces
the unbounded-copy image, given fuel at least the string length. -/
theorem strcpy_avx512_body_spec (srcA : Nat) {d0 s : Mem} {L : Nat}
    (hL0 : s L = 0) (hLmin : ∀ i, i < L → s i ≠ 0) {fuel : Nat}
    (hfuel : L ≤ fuel) :
    strcpy_avx512_body srcA d0 s fuel = some (strcpy_target d0 s L) := by
  have hZ : ZMM_SZ = 64 := rfl
  have hmod : srcA % ZMM_SZ < ZMM_SZ := Nat.mod_lt srcA (by omega)
  by_cases hL64 : L < ZMM_SZ
  · simp only [strcpy_avx512_body, chunkMatch_first_null_in hL0 hLmin
      (Nat.zero_le L) (show L < 0 + ZMM_SZ by omega)]
    exact congrArg some (strcpy_prefix_full d0 s L)
  · have hcm := chunkMatch_first_null_out hLmin (show 0 + ZMM_SZ ≤ L by omega)
    simp only [strcpy_avx512_body, hcm]
    have hinv0 : StrcpyInv d0 s d0 L 0 :=
      ⟨fun x hx => absurd hx (Nat.not_lt_zero x), fun _ _ => rfl⟩
    have hinv1 : StrcpyInv d0 s (cpy s d0 0 ZMM_SZ) L (ZMM_SZ - srcA % ZMM_SZ) :=
      strcpy_inv_mono
        (StrcpyInv.cpy_step hinv0 (show 0 + ZMM_SZ ≤ L by omega)) (by omega)
    rcases strcpy_vec_loop_spec (strcpy_step_tail s)
        (fun d off hinv hol hw => strcpy_step_tail_found hL0 hLmin hinv hol hw
          (by omega))
        (fun d off hw => strcpy_step_tail_clean hLmin hw)
        3 _ _ hinv1 (by omega) with hfin | ⟨d2, off2, heq2, hinv2, hoff2, hge2⟩
    · simp only [hfin]
    · simp only [heq2]
      rcases strcpy_vec_loop_spec (strcpy_step_mask s)
          (fun d off hinv hol hw => strcpy_step_mask_found hL0 hLmin hinv hol hw)
          (fun d off hw => strcpy_step_mask_clean hLmin hw)
          (4 - (srcA + off2) % (4 * ZMM_SZ) / ZMM_SZ) _ _ hinv2 hoff2 with
        hfin | ⟨d3, off3, heq3, hinv3, hoff3, hge3⟩
      · simp only [hfin]
      · simp only [heq3]
        exact strcpy_loop4_spec hL0 hLmin (by omega) fuel d3 off3 hinv3 hoff3
          (by omega)

/-- `_strcpy_avx512(dst, src)` with fuel at least the string length: the
destination image is the unbounded-copy reference image and the returned
pointer is `dst`, for every alignment and page position of the source. -/
theorem strcpy_avx512_full_spec (dstA srcA : Nat) {d0 s : Mem} {L : Nat}
    (hL0 : s L = 0) (hLmin : ∀ i, i < L → s i ≠ 0) {fuel : Nat}
    (hfuel : L ≤ fuel) :
    strcpy_avx512 dstA srcA d0 s fuel = some (strcpy_target d0 s L, dstA) := by
  have hZ : ZMM_SZ = 64 := rfl
  have hmod : srcA % ZMM_SZ < ZMM_SZ := Nat.mod_lt srcA (by omega)
  rw [strcpy_avx512]
  by_cases hpage : PAGE_SZ - ZMM_SZ < srcA % PAGE_SZ
  · rw [if_pos hpage]
    by_cases hLw : L < ZMM_SZ - srcA % ZMM_SZ
    · simp only [chunkMatch_first_null_in hL0 hLmin (Nat.zero_le L)
        (show L < 0 + (ZMM_SZ - srcA % ZMM_SZ) by omega)]
      rw [strcpy_prefix_full d0 s L]
    · simp only [chunkMatch_first_null_out hLmin
        (show 0 + (ZMM_SZ - srcA % ZMM_SZ) ≤ L by omega)]
      simp only [strcpy_avx512_body_spec srcA hL0 hLmin hfuel]
  · rw [if_neg hpage]
    simp only [strcpy_avx512_body_spec srcA hL0 hLmin hfuel]

/-- **C7.** For every null-terminated source string (first null at offset
`L`) and destination budget `size > 0`, `_strncpy_avx512` makes the first
`min(L+1, size)` destination bytes equal to the source bytes (terminator
included when it fits), fills every remaining destination byte below
`size` with nulls when `L + 1 < size`, leaves all other destination bytes
untouched and returns the original destination pointer; and the unbounded
`_strcpy_avx512` (with enough fuel for its main loop) copies exactly the
`L` string bytes plus the terminator, leaving everything else untouched
and returning the destination pointer. -/
theorem strncpy_strcpy_avx512_correct (dstA srcA : Nat) (d s : Mem) (L : Nat)
    (hL0 : s L = 0) (hLmin : ∀ i, i < L → s i ≠ 0) :
    (∀ size, 0 < size →
      strncpy_avx512 dstA srcA d s size = (strncpy_target d s size L, dstA)) ∧
    (∀ fuel, L ≤ fuel →
      strcpy_avx512 dstA srcA d s fuel = some (strcpy_target d s L, dstA)) :=
  ⟨fun _ hsz => strncpy_avx512_full_spec dstA srcA hL0 hLmin hsz,
    fun _ hfuel => strcpy_avx512_full_spec dstA srcA hL0 hLmin hfuel⟩

/-- Concrete source string for the C7 witness: bytes 2, 3, terminator
(`L = 2`). -/
def strcpy_wsrc : Mem := fun i => [2, 3, 0].getD i 0

/-- Concrete destination background for the C7 witness. -/
def strcpy_wdst : Mem := fun _ => 7

/-- Witness for C7: the bounded copy at budget 2 (truncating) and the
unbounded copy at fuel 2, at concrete pointers `dst = 5`, `src = 3`. -/
theorem strncpy_strcpy_avx512_correct_witness :
    strncpy_avx512 5 3 strcpy_wdst strcpy_wsrc 2 =
        (strncpy_target strcpy_wdst strcpy_wsrc 2 2, 5) ∧
    strcpy_avx512 5 3 strcpy_wdst strcpy_wsrc 2 =
        some (strcpy_target strcpy_wdst strcpy_wsrc 2, 5) :=
  ⟨(strncpy_strcpy_avx512_correct 5 3 strcpy_wdst strcpy_wsrc 2 (by decide)
      (by decide)).1 2 (by decide),
    (strncpy_strcpy_avx512_correct 5 3 strcpy_wdst strcpy_wsrc 2 (by decide)
      (by decide)).2 2 (by decide)⟩

/-! ## Substring search (`_strstr_avx512`,
src/isa/avx512/optimized/strstr_avx512.c)

`hayA`, `ndlA` are the pointer values of `haystack` and `needle`; `hay`,
`ndl` the bytes at offsets from them.  The unbounded loops take an
explicit fuel (`none` = fuel ran out); the inner `Option Nat` is the
returned pointer as an offset from `haystack` (`none` = `NULL`). -/

/-- The bytes of `m` starting `o` bytes further on (`m + o` in C). -/
def shiftMem (m : Mem) (o : Nat) : Mem := fun i => m (o + i)

/-- Nonzero `_mm512_cmpneq_epu8_mask` (or nonzero `test_epi8_mask` of an
XOR) over a window: some byte of the window differs. -/
def blockNe (s1 s2 : Mem) (base w : Nat) : Bool :=
  (chunkDiff s1 s2 base w).isSome

/-- The 4×ZMM while loop and trailing remainder cases of
`cmp_needle_page_safe` (lines 87-155): XOR+OR batched 4-vector blocks,
then the `left_out` remainder with overlapping back-anchored loads. -/
def cmp_needle_safe_loop (s1 s2 : Mem) (size offset : Nat) : Int :=
  if h : 4 * ZMM_SZ ≤ size - offset then
    if blockNe s1 s2 offset ZMM_SZ || blockNe s1 s2 (offset + ZMM_SZ) ZMM_SZ ||
        blockNe s1 s2 (offset + 2 * ZMM_SZ) ZMM_SZ ||
        blockNe s1 s2 (offset + 3 * ZMM_SZ) ZMM_SZ then -1
    else cmp_needle_safe_loop s1 s2 size (offset + 4 * ZMM_SZ)
  else
    if size - offset = 0 then 0
    else if size - offset ≤ ZMM_SZ then
      if blockNe s1 s2 offset (size - offset) then 1 else 0
    else if size - offset ≤ 2 * ZMM_SZ then
      if blockNe s1 s2 offset ZMM_SZ then -1
      else if blockNe s1 s2 (size - ZMM_SZ) ZMM_SZ then 1 else 0
    else
      if blockNe s1 s2 offset ZMM_SZ || blockNe s1 s2 (offset + ZMM_SZ) ZMM_SZ ||
          blockNe s1 s2 (size - 2 * ZMM_SZ) ZMM_SZ ||
          blockNe s1 s2 (size - ZMM_SZ) ZMM_SZ then 1 else 0
termination_by size - offset
decreasing_by simp [ZMM_SZ] at *; omega

/-- `cmp_needle_page_safe(str1, str2, size)` (lines 33-156): returns 0
iff the `size` bytes agree (the model keeps the source's 0 / 1 / -1
result values). -/
def cmp_needle_page_safe (s1 s2 : Mem) (size : Nat) : Int :=
  if size ≤ ZMM_SZ then
    if blockNe s1 s2 0 size then 1 else 0
  else if size ≤ 2 * ZMM_SZ then
    if blockNe s1 s2 0 ZMM_SZ then -1
    else if blockNe s1 s2 (size - ZMM_SZ) ZMM_SZ then 1 else 0
  else if size ≤ 4 * ZMM_SZ then
    if blockNe s1 s2 0 ZMM_SZ || blockNe s1 s2 ZMM_SZ ZMM_SZ ||
        blockNe s1 s2 (size - 2 * ZMM_SZ) ZMM_SZ ||
        blockNe s1 s2 (size - ZMM_SZ) ZMM_SZ then 1 else 0
  else cmp_needle_safe_loop s1 s2 size 0

/-- The safe-region while loop of `cmp_needle_page_cross` (lines 162-172):
`none` on a mismatch (return -1), otherwise the exit offset. -/
def cmp_cross_while (s1 s2 : Mem) (safe_bytes offset : Nat) : Option Nat :=
  if h : offset < safe_bytes then
    let so := min (safe_bytes - offset) ZMM_SZ
    if blockNe s1 s2 offset so then none
    else cmp_cross_while s1 s2 safe_bytes (offset + so)
  else some offset
termination_by safe_bytes - offset
decreasing_by simp [ZMM_SZ] at *; omega

/-- `cmp_needle_page_cross(str1, str2, size, safe_bytes)` (lines 159-188):
masked chunks through the safe region, then a page-position recomputation
for the tail; the recursion takes an explicit fuel. -/
def cmp_needle_page_cross : Nat → Nat → Nat → Mem → Mem → Nat → Nat → Option Int
  | 0, _, _, _, _, _, _ => none
  | fuel + 1, a1, a2, s1, s2, size, safe_bytes =>
    match cmp_cross_while s1 s2 safe_bytes 0 with
    | none => some (-1)
    | some offset =>
      if 0 < size - offset then
        let t1 := PAGE_SZ - (a1 + offset) % PAGE_SZ
        let t2 := PAGE_SZ - (a2 + offset) % PAGE_SZ
        let tsafe := min t1 t2
        if size - offset ≤ tsafe then
          some (cmp_needle_page_safe (shiftMem s1 offset) (shiftMem s2 offset)
            (size - offset))
        else
          cmp_needle_page_cross fuel (a1 + offset) (a2 + offset)
            (shiftMem s1 offset) (shiftMem s2 offset) (size - offset) tsafe
      else some 0

/-- `cmp_needle_avx512(haystack, needle, hay_idx, needle_len)`
(lines 190-201): page-distance dispatch between the safe and the
page-cross comparison; the cross fuel `needle_len + 1` covers its
strictly shrinking recursion. -/
def cmp_needle_avx512 (hayA ndlA : Nat) (hay ndl : Mem)
    (hay_idx needle_len : Nat) : Option Int :=
  let offset1 := PAGE_SZ - (hayA + hay_idx) % PAGE_SZ
  let offset2 := PAGE_SZ - ndlA % PAGE_SZ
  let safe_bytes := min offset1 offset2
  if needle_len ≤ safe_bytes then
    some (cmp_needle_page_safe (shiftMem hay hay_idx) ndl needle_len)
  else
    cmp_needle_page_cross (needle_len + 1) (hayA + hay_idx) ndlA
      (shiftMem hay hay_idx) ndl needle_len safe_bytes

/-- Modelled from the spec: `_strlen_avx512` (strlen_avx512.c, not under
src/) returns the number of bytes before the first null terminator; the
scan bound is an explicit fuel. -/
def strlen_avx512 (m : Mem) (fuel : Nat) : Option Nat :=
  firstWitness (fun i => m i == 0) 0 fuel

/-- Modelled from the spec: the scan of `_strchr_avx512` (strchr_avx512.c,
not under src/) — the first position holding byte `c` strictly before the
terminator, `some none` when the terminator comes first. -/
def strchr_scan (m : Mem) (c : Nat) : Nat → Nat → Option (Option Nat)
  | 0, _ => none
  | fuel + 1, i =>
    if m i == c then some (some i)
    else if m i == 0 then some none
    else strchr_scan m c fuel (i + 1)

/-- Modelled from the spec: `_strchr_avx512(s, c)` with an explicit scan
fuel. -/
def strchr_avx512 (m : Mem) (c : Nat) (fuel : Nat) : Option (Option Nat) :=
  strchr_scan m c fuel 0

/-- One candidate check of `_strstr_avx512`'s match loops (the shared
body at lines 264-277 / 301-312 / 367-378 / 392-403): the same-page XOR
test, the scalar last-character pre-check when safe, and the full needle
comparison; `some true` = return `haystack + abs_pos`. -/
def strstr_try (hayA ndlA : Nat) (hay ndl : Mem)
    (needle_len last_char abs_pos : Nat) : Option Bool :=
  let m_ptr := hayA + abs_pos
  let last_ptr := m_ptr + needle_len - 1
  if m_ptr ^^^ last_ptr < PAGE_SZ then
    if hay (abs_pos + needle_len - 1) == last_char then
      match cmp_needle_avx512 hayA ndlA hay ndl abs_pos needle_len with
      | none => none
      | some r => some (r == 0)
    else some false
  else
    match cmp_needle_avx512 hayA ndlA hay ndl abs_pos needle_len with
    | none => none
    | some r => some (r == 0)

/-- A `while (match_mask) { tzcnt …; blsr }` candidate loop over the
window `[a, a+w)`: candidates (mask bits) are the positions where `cand`
holds, tried in ascending order; `some none` = mask exhausted. -/
def strstr_cand_loop (hayA ndlA : Nat) (hay ndl : Mem)
    (needle_len last_char : Nat) (cand : Nat → Bool) :
    Nat → Nat → Option (Option Nat)
  | 0, _ => some none
  | w + 1, a =>
    if cand a then
      match strstr_try hayA ndlA hay ndl needle_len last_char a with
      | none => none
      | some true => some (some a)
      | some false =>
        strstr_cand_loop hayA ndlA hay ndl needle_len last_char cand w (a + 1)
    else strstr_cand_loop hayA ndlA hay ndl needle_len last_char cand w (a + 1)

/-- The aligned main loop of `_strstr_avx512` (lines 343-408): per 64B
block, the null scan; with a null, candidates are first-char matches up
to the null that pass the in-string fit check, then `NULL` is returned;
without, all first-char matches of the block, then the next block. -/
def strstr_main_loop (hayA ndlA : Nat) (hay ndl : Mem)
    (needle_len first_char last_char : Nat) : Nat → Nat → Option (Option Nat)
  | 0, _ => none
  | fuel + 1, offset =>
    match chunkMatch hay 0 offset ZMM_SZ with
    | some nabs =>
      match strstr_cand_loop hayA ndlA hay ndl needle_len last_char
          (fun a => (hay a == first_char) && decide (a ≤ nabs) &&
            decide (a - offset + needle_len ≤ nabs - offset + 1))
          ZMM_SZ offset with
      | none => none
      | some (some idx) => some (some idx)
      | some none => some none
    | none =>
      match strstr_cand_loop hayA ndlA hay ndl needle_len last_char
          (fun a => hay a == first_char) ZMM_SZ offset with
      | none => none
      | some (some idx) => some (some idx)
      | some none =>
        strstr_main_loop hayA ndlA hay ndl needle_len first_char last_char
          fuel (offset + ZMM_SZ)

/-- `_strstr_avx512(haystack, needle)` (lines 205-409): the empty-needle /
empty-haystack / single-character special cases, the needle length, the
page-proximity haystack head (masked load with 0xFF background lanes on a
page crossing, full unaligned load otherwise), the head candidate loops
and the aligned main loop. -/
def strstr_avx512 (hayA ndlA : Nat) (hay ndl : Mem) (fuel : Nat) :
    Option (Option Nat) :=
  if ndl 0 == 0 then some (some 0)
  else if hay 0 == 0 then some none
  else if ndl 1 == 0 then strchr_avx512 hay (ndl 0) fuel
  else
    match strlen_avx512 ndl fuel with
    | none => none
    | some needle_len =>
      let first_char := ndl 0
      let last_char := ndl (needle_len - 1)
      let offset := hayA % ZMM_SZ
      if PAGE_SZ - ZMM_SZ < hayA % PAGE_SZ then
        match chunkMatch hay 0 0 (ZMM_SZ - offset) with
        | some nabs =>
          if nabs < needle_len then some none
          else
            match strstr_cand_loop hayA ndlA hay ndl needle_len last_char
                (fun a => (hay a == first_char) && decide (a ≤ nabs))
                ZMM_SZ 0 with
            | none => none
            | some (some idx) => some (some idx)
            | some none => some none
        | none =>
          match strstr_cand_loop hayA ndlA hay ndl needle_len last_char
              (fun a => if a < ZMM_SZ - offset then hay a == first_char
                else first_char == 255)
              ZMM_SZ 0 with
          | none => none
          | some (some idx) => some (some idx)
          | some none =>
            strstr_main_loop hayA ndlA hay ndl needle_len first_char last_char
              fuel (ZMM_SZ - offset)
      else
        match chunkMatch hay 0 0 ZMM_SZ with
        | some nabs =>
          if nabs < needle_len then some none
          else
            match strstr_cand_loop hayA ndlA hay ndl needle_len last_char
                (fun a => (hay a == first_char) && decide (a ≤ nabs))
                ZMM_SZ 0 with
            | none => none
            | some (some idx) => some (some idx)
            | some none => some none
        | none =>
          match strstr_cand_loop hayA ndlA hay ndl needle_len last_char
              (fun a => hay a == first_char) ZMM_SZ 0 with
          | none => none
          | some (some idx) => some (some idx)
          | some none =>
            strstr_main_loop hayA ndlA hay ndl needle_len first_char last_char
              fuel (ZMM_SZ - offset)

/-- The needle occurs in the haystack at offset `i` (raw byte equality
over the needle length). -/
def occursAt (hay ndl : Mem) (Ln i : Nat) : Bool :=
  decide (∀ j, j < Ln → hay (i + j) = ndl j)

/-- Naive double-loop scalar `strstr` reference from the spec: the empty
needle returns the haystack, otherwise the first start offset
`i ≤ Lh - Ln` at which every needle byte matches (`Lh`, `Ln` the string
lengths), `none` when there is none. -/
def strstr_ref (hay ndl : Mem) (Lh Ln : Nat) : Option Nat :=
  if Ln = 0 then some 0
  else firstWitness (occursAt hay ndl Ln) 0 (Lh + 1 - Ln)

/-- Haystack bytes for the C4 counterexample: the string "abcdef"
(length 6), followed past its terminator by the bytes 255, 255, 0. -/
def strstr_hay_ex : Mem :=
  fun i => [97, 98, 99, 100, 101, 102, 0, 255, 255, 0].getD i 0

/-- Needle bytes for the C4 counterexample: two 255 bytes (length 2). -/
def strstr_ndl_ex : Mem := fun i => [255, 255, 0].getD i 0

/-- **C4.** Refuted: `_strstr_avx512` does not always return the same
pointer as the naive double-loop scalar reference.  With the haystack
"abcdef" placed at pointer value 4090 (58 bytes before a page end, so the
page-cross head path runs: a masked load whose unloaded lanes read as
0xFF), a needle of two 255 bytes, and the bytes 255, 255 lying in memory
just past the haystack's terminator, the kernel's head fall-through
treats the 0xFF background lanes as first-character candidates, verifies
one with raw byte comparisons that run past the terminator, and returns
`haystack + 7` — an address beyond the end of the haystack string — while
the scalar reference finds no occurrence and returns `NULL`.  The final
conjuncts record that the haystack's first null is at offset 6 and the
needle's at offset 2. -/
theorem strstr_beyond_terminator_divergence :
    strstr_avx512 4090 0 strstr_hay_ex strstr_ndl_ex 8 = some (some 7) ∧
    strstr_ref strstr_hay_ex strstr_ndl_ex 6 2 = none ∧
    strstr_hay_ex 6 = 0 ∧ (∀ i, i < 6 → strstr_hay_ex i ≠ 0) ∧
    strstr_ndl_ex 2 = 0 ∧ (∀ i, i < 2 → strstr_ndl_ex i ≠ 0) := by
  refine ⟨by decide, by decide, by decide, by decide, by decide, by decide⟩

end Libmem
